import Mathlib

/-!
Verification development for the docs-mcp-server core: a shallow embedding of
the greedy chunk splitter (`GreedySplitter.splitText`), the document store's
FTS query escaping (`DocumentStore.escapeFtsQuery`), the hybrid-search ranking
(`DocumentStore.assignRanks` / `calculateRRF` / `findByContent`), the SQLite
row-level write operations (`DocumentStore.addDocuments`, `deletePages`,
`removeVersion`, `checkDocumentExists`), and the embedding retry logic
(`DocumentStore.embedDocumentsWithRetry`), together with theorems settling
the specification claims about them.

Modelling conventions: JavaScript strings are Lean `String`s (character
based), JavaScript numbers used for scores are `ℚ` (the score arithmetic in
scope is exact in the float range used), SQLite tables are Lean lists of row
structures, and SQL statements are list transformations that mirror the
prepared statements of the source.
-/

set_option linter.unusedVariables false

/-! ### The splitter data model (src/splitter/types.ts) -/

/-- Section metadata of a chunk: heading level and root-to-leaf path of
heading titles.  Mirrors `Chunk.section` in the source (the field is named
`sect` here because `section` is a Lean keyword). -/
structure ChunkSection where
  level : Nat
  path : List String
deriving DecidableEq, Repr

/-- A document chunk as produced by the splitters and consumed by the store:
content-type tags, the text body, and section metadata. -/
structure Chunk where
  types : List String
  content : String
  sect : ChunkSection
deriving DecidableEq, Repr

/-- The three size parameters of the greedy splitter. -/
structure SplitterConfig where
  minChunkSize : Nat
  preferredChunkSize : Nat
  maxChunkSize : Nat
deriving DecidableEq, Repr

/-! ### GreedySplitter (src/splitter/GreedySplitter.ts) -/

/-- Mirrors `GreedySplitter.cloneChunk`: a deep copy of a chunk (the model is
pure, so this is a structural copy). -/
def cloneChunk (chunk : Chunk) : Chunk :=
  { types := chunk.types, content := chunk.content
    sect := { level := chunk.sect.level, path := chunk.sect.path } }

/-- Mirrors `content.endsWith("\n")` on the accumulated chunk. -/
def endsWithNewline (s : String) : Bool :=
  s.data.getLast? = some '\n'

/-- Mirrors the loop's `separatorSize`: 0 when the accumulated content already
ends with a newline, else 1 for the separator that a merge would insert. -/
def separatorSizeOf (s : String) : Nat :=
  if endsWithNewline s then 0 else 1

/-- Mirrors `GreedySplitter.startsNewMajorSection`: H1/H2 chunks open a major
section. -/
def startsNewMajorSection (chunk : Chunk) : Prop :=
  chunk.sect.level = 1 ∨ chunk.sect.level = 2

instance (chunk : Chunk) : Decidable (startsNewMajorSection chunk) := by
  unfold startsNewMajorSection; infer_instance

/-- Mirrors `GreedySplitter.isPathIncluded`: a strictly shorter path that is a
prefix of the other (an ancestor in the section hierarchy). -/
def isPathIncluded (parentPath childPath : List String) : Prop :=
  parentPath.length < childPath.length ∧ parentPath <+: childPath

instance (p c : List String) : Decidable (isPathIncluded p c) := by
  unfold isPathIncluded; infer_instance

/-- Mirrors `GreedySplitter.isSameSection`: equal paths or an ancestor
relation in either direction. -/
def isSameSection (chunk1 chunk2 : Chunk) : Prop :=
  chunk1.sect.path = chunk2.sect.path ∨
    isPathIncluded chunk1.sect.path chunk2.sect.path ∨
    isPathIncluded chunk2.sect.path chunk1.sect.path

instance (c1 c2 : Chunk) : Decidable (isSameSection c1 c2) := by
  unfold isSameSection; infer_instance

/-- Mirrors `GreedySplitter.findCommonPrefix`. -/
def findCommonPrefix : List String → List String → List String
  | a :: as, b :: bs => if a = b then a :: findCommonPrefix as bs else []
  | _, _ => []

/-- Mirrors `GreedySplitter.mergeSectionInfo`: minimum level; the deeper path
for ancestor pairs, the common prefix otherwise, the current section when the
sections coincide exactly. -/
def mergeSectionInfo (currentChunk nextChunk : Chunk) : ChunkSection :=
  let level := min currentChunk.sect.level nextChunk.sect.level
  if currentChunk.sect.level = nextChunk.sect.level ∧
      currentChunk.sect.path = nextChunk.sect.path then
    currentChunk.sect
  else if isPathIncluded currentChunk.sect.path nextChunk.sect.path then
    { path := nextChunk.sect.path, level := level }
  else if isPathIncluded nextChunk.sect.path currentChunk.sect.path then
    { path := currentChunk.sect.path, level := level }
  else
    { path := findCommonPrefix currentChunk.sect.path nextChunk.sect.path, level := level }

/-- Mirrors `GreedySplitter.mergeTypes`: `[...new Set([...a, ...b])]`, the
union keeping first-insertion order. -/
def mergeTypes (currentTypes nextTypes : List String) : List String :=
  (currentTypes ++ nextTypes).foldl (fun acc t => if t ∈ acc then acc else acc ++ [t]) []

/-- The merge step of `GreedySplitter.splitText`: append the next chunk's
content (with a newline separator unless one is already present), fuse section
metadata and types. -/
def mergeChunk (currentChunk nextChunk : Chunk) : Chunk :=
  { content := currentChunk.content ++
      (if endsWithNewline currentChunk.content then "" else "\n") ++ nextChunk.content
    sect := mergeSectionInfo currentChunk nextChunk
    types := mergeTypes currentChunk.types nextChunk.types }

/-- Which branch of the loop body of `GreedySplitter.splitText` emitted a
chunk into the output.  `hardLimit` is the `combinedSize > maxChunkSize`
rejection, `majorBoundary` the H1/H2 structure split, `preferredSize` the
soft-target split, and `lastChunk` the trailing push after the loop. -/
inductive PushReason where
  | hardLimit
  | majorBoundary
  | preferredSize
  | lastChunk
deriving DecidableEq, Repr

/-- The loop of `GreedySplitter.splitText`, annotated: each emitted chunk is
paired with the branch that emitted it.  The three `if` conditions are the
source's three split rules in source order; the final `else` is the merge. -/
def splitTextGo (cfg : SplitterConfig) (currentChunk : Chunk) :
    List Chunk → List (Chunk × PushReason)
  | [] => [(currentChunk, PushReason.lastChunk)]
  | nextChunk :: rest =>
    let separatorSize := separatorSizeOf currentChunk.content
    let combinedSize :=
      currentChunk.content.length + separatorSize + nextChunk.content.length
    if cfg.maxChunkSize < combinedSize then
      (currentChunk, PushReason.hardLimit) :: splitTextGo cfg (cloneChunk nextChunk) rest
    else if cfg.minChunkSize ≤ currentChunk.content.length ∧
        startsNewMajorSection nextChunk ∧ ¬ isSameSection currentChunk nextChunk then
      (currentChunk, PushReason.majorBoundary) :: splitTextGo cfg (cloneChunk nextChunk) rest
    else if cfg.preferredChunkSize < combinedSize ∧
        cfg.minChunkSize ≤ currentChunk.content.length ∧
        cfg.minChunkSize ≤ nextChunk.content.length then
      (currentChunk, PushReason.preferredSize) :: splitTextGo cfg (cloneChunk nextChunk) rest
    else
      splitTextGo cfg (mergeChunk currentChunk nextChunk) rest

/-- Annotated transcription of `GreedySplitter.splitText` applied to the base
splitter's output list. -/
def splitTextAnnot (cfg : SplitterConfig) (initialChunks : List Chunk) :
    List (Chunk × PushReason) :=
  match initialChunks with
  | [] => []
  | c :: rest => splitTextGo cfg (cloneChunk c) rest

/-- `GreedySplitter.splitText`: the concatenated chunks (annotations erased). -/
def splitText (cfg : SplitterConfig) (initialChunks : List Chunk) : List Chunk :=
  (splitTextAnnot cfg initialChunks).map Prod.fst

example :
    (splitText ⟨2, 3, 5⟩
      [⟨["text"], "a", ⟨3, []⟩⟩, ⟨["text"], "bbbb", ⟨3, []⟩⟩]).map
        (fun c => c.content.length) = [1, 4] := by decide

example :
    (splitText ⟨2, 3, 5⟩
      [⟨["text"], "a", ⟨3, []⟩⟩, ⟨["text"], "bb", ⟨3, []⟩⟩]).map
        (fun c => c.content) = ["a\nbb"] := by decide

/-- The merged content length is exactly the `combinedSize` computed by the
loop: current length plus separator (0 or 1) plus next length. -/
theorem mergeChunk_content_length (currentChunk nextChunk : Chunk) :
    (mergeChunk currentChunk nextChunk).content.length =
      currentChunk.content.length + separatorSizeOf currentChunk.content +
        nextChunk.content.length := by
  unfold mergeChunk separatorSizeOf
  by_cases h : endsWithNewline currentChunk.content = true
  · simp [h, String.length_append]
  · simp only [Bool.not_eq_true] at h
    simp only [h, Bool.false_eq_true, if_false, String.length_append]
    rfl

/-- Every chunk emitted by the loop stays within `maxChunkSize`, provided the
accumulator and every pending base chunk do. -/
theorem splitTextGo_le_max (cfg : SplitterConfig) (l : List Chunk)
    (currentChunk : Chunk)
    (hcur : currentChunk.content.length ≤ cfg.maxChunkSize)
    (hl : ∀ b ∈ l, b.content.length ≤ cfg.maxChunkSize) :
    ∀ x ∈ splitTextGo cfg currentChunk l, x.1.content.length ≤ cfg.maxChunkSize := by
  induction l generalizing currentChunk with
  | nil =>
    intro x hx
    simp only [splitTextGo, List.mem_singleton] at hx
    subst hx; exact hcur
  | cons nextChunk rest ih =>
    intro x hx
    have hnext : nextChunk.content.length ≤ cfg.maxChunkSize :=
      hl nextChunk (by simp)
    have hrest : ∀ b ∈ rest, b.content.length ≤ cfg.maxChunkSize :=
      fun b hb => hl b (by simp [hb])
    simp only [splitTextGo] at hx
    split_ifs at hx with h1 h2 h3
    · rcases List.mem_cons.mp hx with hx | hx
      · subst hx; exact hcur
      · exact ih (cloneChunk nextChunk) hnext hrest x hx
    · rcases List.mem_cons.mp hx with hx | hx
      · subst hx; exact hcur
      · exact ih (cloneChunk nextChunk) hnext hrest x hx
    · rcases List.mem_cons.mp hx with hx | hx
      · subst hx; exact hcur
      · exact ih (cloneChunk nextChunk) hnext hrest x hx
    · refine ih (mergeChunk currentChunk nextChunk) ?_ hrest x hx
      rw [mergeChunk_content_length]
      exact Nat.le_of_not_lt h1

/-- Every chunk that the loop emits with a successor was pushed either by the
hard limit, the major-boundary rule, or the preferred-size rule; and the
latter two only push accumulators of size at least `minChunkSize`.  Hence an
emitted chunk smaller than `minChunkSize` that has a successor was emitted by
the hard-limit rejection. -/
theorem splitTextGo_chain (cfg : SplitterConfig) (l : List Chunk)
    (currentChunk : Chunk) :
    List.Chain'
      (fun a _ => a.1.content.length < cfg.minChunkSize → a.2 = PushReason.hardLimit)
      (splitTextGo cfg currentChunk l) := by
  induction l generalizing currentChunk with
  | nil => simp [splitTextGo]
  | cons nextChunk rest ih =>
    simp only [splitTextGo]
    split_ifs with h1 h2 h3
    · exact List.Chain'.cons' (ih (cloneChunk nextChunk)) (fun b _ _ => rfl)
    · refine List.Chain'.cons' (ih (cloneChunk nextChunk)) (fun b _ hsmall => ?_)
      exact absurd h2.1 (Nat.not_le_of_lt hsmall)
    · refine List.Chain'.cons' (ih (cloneChunk nextChunk)) (fun b _ hsmall => ?_)
      exact absurd h3.2.1 (Nat.not_le_of_lt hsmall)
    · exact ih (mergeChunk currentChunk nextChunk)

/-- C2, amended: provided every base-splitter chunk already fits within
`maxChunkSize` (the source only logs a warning for oversized base chunks and
passes them through), every output chunk body has size at most
`maxChunkSize`; and whenever two adjacent output chunks both have body sizes
below `minChunkSize`, the left one was emitted by a hard-limit rejection or a
major-section-boundary split. -/
theorem greedySplitter_size_invariant (cfg : SplitterConfig)
    (initialChunks : List Chunk)
    (hmax : ∀ b ∈ initialChunks, b.content.length ≤ cfg.maxChunkSize) :
    (∀ c ∈ splitText cfg initialChunks, c.content.length ≤ cfg.maxChunkSize) ∧
    List.Chain'
      (fun a b => a.1.content.length < cfg.minChunkSize →
        b.1.content.length < cfg.minChunkSize →
        a.2 = PushReason.hardLimit ∨ a.2 = PushReason.majorBoundary)
      (splitTextAnnot cfg initialChunks) := by
  constructor
  · intro c hc
    simp only [splitText, List.mem_map] at hc
    obtain ⟨x, hx, hxc⟩ := hc
    cases initialChunks with
    | nil => simp [splitTextAnnot] at hx
    | cons c0 rest =>
      have := splitTextGo_le_max cfg rest (cloneChunk c0)
        (hmax c0 (by simp)) (fun b hb => hmax b (by simp [hb])) x
        (by simpa [splitTextAnnot] using hx)
      simpa [hxc] using this
  · cases initialChunks with
    | nil => simp [splitTextAnnot]
    | cons c0 rest =>
      refine List.Chain'.imp ?_ (splitTextGo_chain cfg rest (cloneChunk c0))
      intro a b h ha hb
      exact Or.inl (h ha)

/-- Witness for `greedySplitter_size_invariant` at a concrete input:
configuration `min=2, preferred=3, max=5` on base chunks of sizes 1 and 4. -/
theorem greedySplitter_size_invariant_witness :
    (∀ b ∈ [(⟨["text"], "a", ⟨3, []⟩⟩ : Chunk), ⟨["text"], "bbbb", ⟨3, []⟩⟩],
        b.content.length ≤ (5 : Nat)) ∧
    ((∀ c ∈ splitText ⟨2, 3, 5⟩
        [⟨["text"], "a", ⟨3, []⟩⟩, ⟨["text"], "bbbb", ⟨3, []⟩⟩],
        c.content.length ≤ (5 : Nat)) ∧
      List.Chain'
        (fun a b => a.1.content.length < 2 →
          b.1.content.length < 2 →
          a.2 = PushReason.hardLimit ∨ a.2 = PushReason.majorBoundary)
        (splitTextAnnot ⟨2, 3, 5⟩
          [⟨["text"], "a", ⟨3, []⟩⟩, ⟨["text"], "bbbb", ⟨3, []⟩⟩])) :=
  ⟨by decide,
    greedySplitter_size_invariant ⟨2, 3, 5⟩
      [⟨["text"], "a", ⟨3, []⟩⟩, ⟨["text"], "bbbb", ⟨3, []⟩⟩] (by decide)⟩

/-- C2 as stated: every output chunk body of the greedy splitter has size at
most `maxChunkSize`, for every base-splitter output. -/
def ClaimC2AllChunksFit : Prop :=
  ∀ (cfg : SplitterConfig) (initialChunks : List Chunk),
    ∀ c ∈ splitText cfg initialChunks, c.content.length ≤ cfg.maxChunkSize

/-- Counterexample to C2 as stated: a single base chunk of body size 6 under
`maxChunkSize = 5` passes through the optimizer unchanged (the source only
warns), so the output contains a chunk exceeding the hard ceiling. -/
theorem greedySplitter_max_counterexample :
    ¬ ClaimC2AllChunksFit ∧
      (splitText ⟨2, 3, 5⟩ [⟨["text"], "aaaaaa", ⟨3, []⟩⟩]).map
        (fun c => c.content.length) = [6] := by
  constructor
  · intro h
    have := h ⟨2, 3, 5⟩ [⟨["text"], "aaaaaa", ⟨3, []⟩⟩]
      ⟨["text"], "aaaaaa", ⟨3, []⟩⟩ (by decide)
    exact absurd this (by decide)
  · decide

/-! ### FTS query escaping (DocumentStore.escapeFtsQuery) -/

/-- The quote-toggle tokenizer loop of `DocumentStore.escapeFtsQuery`: a
double quote toggles phrase mode (saving any accumulated token), a space
outside quotes terminates the current word token, every other character is
accumulated. -/
def ftsTokenizeGo : List Char → String → Bool → List String → List String
  | [], currentToken, _, tokens =>
    if 0 < currentToken.length then tokens ++ [currentToken] else tokens
  | c :: rest, currentToken, inQuote, tokens =>
    if c = '"' then
      if 0 < currentToken.length then
        ftsTokenizeGo rest "" (!inQuote) (tokens ++ [currentToken])
      else
        ftsTokenizeGo rest "" (!inQuote) tokens
    else if c = ' ' ∧ inQuote = false then
      if 0 < currentToken.length then
        ftsTokenizeGo rest "" inQuote (tokens ++ [currentToken])
      else
        ftsTokenizeGo rest currentToken inQuote tokens
    else
      ftsTokenizeGo rest (currentToken.push c) inQuote tokens

/-- The token list that `DocumentStore.escapeFtsQuery` computes for a query. -/
def ftsTokenize (query : String) : List String :=
  ftsTokenizeGo query.data "" false []

/-- Mirrors `token.replace(/"/g, '""')`: every double quote character is
replaced by two double quote characters. -/
def escapeDoubleQuotes (s : String) : String :=
  ⟨s.data.flatMap (fun c => if c = '"' then ['"', '"'] else [c])⟩

/-- Mirrors `Array.prototype.join(sep)` on a list of strings. -/
def joinWith (sep : String) : List String → String
  | [] => ""
  | [t] => t
  | t :: rest => t ++ sep ++ joinWith sep rest

/-- Transcription of `DocumentStore.escapeFtsQuery`: tokenize with the
quote-toggle state machine; an empty token list yields an empty phrase, a
single token is quoted alone, and two or more tokens yield the exact-match
phrase joined with the individual quoted tokens by `OR`. -/
def escapeFtsQuery (query : String) : String :=
  let tokens := ftsTokenize query
  match tokens with
  | [] => "\"\""
  | [t] => "\"" ++ escapeDoubleQuotes t ++ "\""
  | ts@(_ :: _ :: _) =>
    let escapedTokens := ts.map (fun token => "\"" ++ escapeDoubleQuotes token ++ "\"")
    let exactMatch := "\"" ++ escapeDoubleQuotes (joinWith " " ts) ++ "\""
    let termsQuery := joinWith " OR " escapedTokens
    exactMatch ++ " OR " ++ termsQuery

example : ftsTokenize "foo \"bar baz\" qux\"unbalanced" =
    ["foo", "bar baz", "qux", "unbalanced"] := by decide

example : escapeFtsQuery "a b" = "\"a b\" OR \"a\" OR \"b\"" := by decide

example : escapeFtsQuery "" = "\"\"" := by decide

example : escapeFtsQuery "\"hello world\"" = "\"hello world\"" := by decide

/-- Modelled from the spec: the FTS engine accepts without a parse error any
query that is a non-empty `OR`-disjunction of double-quoted string tokens in
which every embedded double quote is doubled.  `isEscapedBody` checks that in
a quoted token body every double quote character occurs as an adjacent
doubled pair. -/
def isEscapedBody : List Char → Bool
  | [] => true
  | '"' :: '"' :: rest => isEscapedBody rest
  | '"' :: _ => false
  | _ :: rest => isEscapedBody rest

/-- A double-quoted FTS string token with the given body. -/
def quoteBody (b : String) : String := "\"" ++ b ++ "\""

/-- An `OR`-disjunction of double-quoted FTS string tokens. -/
def renderDisjunction (bodies : List String) : String :=
  joinWith " OR " (bodies.map quoteBody)

/-- Modelled from the spec: a query parses in the FTS engine when it is a
non-empty disjunction of safely quoted string tokens. -/
def FtsAccepts (q : String) : Prop :=
  ∃ bodies : List String, bodies ≠ [] ∧
    (∀ b ∈ bodies, isEscapedBody b.data = true) ∧ q = renderDisjunction bodies

theorem isEscapedBody_cons_ne (c : Char) (rest : List Char) (h : ¬ c = '"') :
    isEscapedBody (c :: rest) = isEscapedBody rest := by
  cases rest with
  | nil => simp [isEscapedBody, h]
  | cons c2 rest2 => simp [isEscapedBody, h]

/-- Doubling every quote always produces a valid quoted-token body. -/
theorem isEscapedBody_flatMap (l : List Char) :
    isEscapedBody (l.flatMap (fun c => if c = '"' then ['"', '"'] else [c])) = true := by
  induction l with
  | nil => simp [isEscapedBody]
  | cons c rest ih =>
    by_cases h : c = '"'
    · subst h
      simpa [isEscapedBody] using ih
    · rw [List.flatMap_cons, if_neg h, List.singleton_append, isEscapedBody_cons_ne c _ h]
      exact ih

theorem escapeDoubleQuotes_escaped (s : String) :
    isEscapedBody (escapeDoubleQuotes s).data = true :=
  isEscapedBody_flatMap s.data

/-- The tokenizer never puts a double quote character into a token: quote
characters only toggle the mode. -/
theorem ftsTokenizeGo_no_quote (chars : List Char) (currentToken : String)
    (inQuote : Bool) (tokens : List String)
    (htoks : ∀ t ∈ tokens, '"' ∉ t.data) (hcur : '"' ∉ currentToken.data) :
    ∀ t ∈ ftsTokenizeGo chars currentToken inQuote tokens, '"' ∉ t.data := by
  induction chars generalizing currentToken inQuote tokens with
  | nil =>
    intro t ht
    simp only [ftsTokenizeGo] at ht
    split_ifs at ht
    · rcases List.mem_append.mp ht with h | h
      · exact htoks t h
      · rw [List.mem_singleton] at h; subst h; exact hcur
    · exact htoks t ht
  | cons c rest ih =>
    intro t ht
    simp only [ftsTokenizeGo] at ht
    split_ifs at ht with h1 h2 h3 h4
    · refine ih "" (!inQuote) (tokens ++ [currentToken]) ?_ (by simp) t ht
      intro u hu
      rcases List.mem_append.mp hu with h | h
      · exact htoks u h
      · rw [List.mem_singleton] at h; subst h; exact hcur
    · exact ih "" (!inQuote) tokens htoks (by simp) t ht
    · refine ih "" inQuote (tokens ++ [currentToken]) ?_ (by simp) t ht
      intro u hu
      rcases List.mem_append.mp hu with h | h
      · exact htoks u h
      · rw [List.mem_singleton] at h; subst h; exact hcur
    · exact ih currentToken inQuote tokens htoks hcur t ht
    · refine ih (currentToken.push c) inQuote tokens htoks ?_ t ht
      rw [String.data_push]
      intro hmem
      rcases List.mem_append.mp hmem with h | h
      · exact hcur h
      · rw [List.mem_singleton] at h; exact h1 h.symm

/-- No token produced by the tokenizer contains a double quote character. -/
theorem ftsTokenize_no_quote (query : String) :
    ∀ t ∈ ftsTokenize query, '"' ∉ t.data :=
  ftsTokenizeGo_no_quote query.data "" false [] (by simp) (by simp)

/-- C4: every input string, including inputs with unbalanced quotes or FTS5
operator syntax, is escaped into a query the FTS engine parses without
error: a non-empty `OR`-disjunction of double-quoted tokens whose embedded
double quotes are doubled. -/
theorem escapeFtsQuery_always_parses (query : String) :
    FtsAccepts (escapeFtsQuery query) := by
  unfold escapeFtsQuery
  cases hts : ftsTokenize query with
  | nil =>
    refine ⟨[""], by simp, ?_, ?_⟩
    · intro b hb; rw [List.mem_singleton] at hb; subst hb; decide
    · decide
  | cons t1 rest =>
    cases rest with
    | nil =>
      refine ⟨[escapeDoubleQuotes t1], by simp, ?_, ?_⟩
      · intro b hb; rw [List.mem_singleton] at hb; subst hb
        exact escapeDoubleQuotes_escaped t1
      · simp [renderDisjunction, joinWith, quoteBody]
    | cons t2 ts =>
      refine ⟨escapeDoubleQuotes (joinWith " " (t1 :: t2 :: ts)) ::
          (t1 :: t2 :: ts).map escapeDoubleQuotes, by simp, ?_, ?_⟩
      · intro b hb
        rcases List.mem_cons.mp hb with h | h
        · subst h; exact escapeDoubleQuotes_escaped _
        · obtain ⟨u, _, hu⟩ := List.mem_map.mp h
          subst hu; exact escapeDoubleQuotes_escaped u
      · have hfun : (quoteBody ∘ escapeDoubleQuotes) =
            (fun token => "\"" ++ (escapeDoubleQuotes token ++ "\"")) := by
          funext u; simp [quoteBody, String.append_assoc]
        simp only [renderDisjunction, List.map_cons, List.map_map, joinWith, quoteBody, hfun]
        simp [String.append_assoc]

/-- C3, amended: when the query tokenizes into two or more tokens, the
emitted engine query is exactly `"<exact-joined>" OR "t1" OR … OR "tn"` —
every token double-quoted with embedded quotes doubled, joined by `OR`, but
with no parentheses around the exact-match phrase or the term disjunction.
Moreover no token ever contains a double quote character, so the escaping
step never actually rewrites a token. -/
theorem escapeFtsQuery_or_shape (query t1 t2 : String) (ts : List String)
    (h : ftsTokenize query = t1 :: t2 :: ts) :
    escapeFtsQuery query =
      "\"" ++ escapeDoubleQuotes (joinWith " " (t1 :: t2 :: ts)) ++ "\"" ++ " OR " ++
        joinWith " OR "
          ((t1 :: t2 :: ts).map (fun token => "\"" ++ escapeDoubleQuotes token ++ "\"")) ∧
    ∀ t ∈ ftsTokenize query, '"' ∉ t.data := by
  refine ⟨?_, ftsTokenize_no_quote query⟩
  unfold escapeFtsQuery
  rw [h]

/-- Witness for `escapeFtsQuery_or_shape` on the spec's literal scenario
query. -/
theorem escapeFtsQuery_or_shape_witness :
    ftsTokenize "foo \"bar baz\" qux\"unbalanced" =
      ["foo", "bar baz", "qux", "unbalanced"] ∧
    (escapeFtsQuery "foo \"bar baz\" qux\"unbalanced" =
      "\"" ++ escapeDoubleQuotes
          (joinWith " " ["foo", "bar baz", "qux", "unbalanced"]) ++ "\"" ++ " OR " ++
        joinWith " OR "
          ((["foo", "bar baz", "qux", "unbalanced"]).map
            (fun token => "\"" ++ escapeDoubleQuotes token ++ "\"")) ∧
      ∀ t ∈ ftsTokenize "foo \"bar baz\" qux\"unbalanced", '"' ∉ t.data) :=
  ⟨by decide,
    escapeFtsQuery_or_shape "foo \"bar baz\" qux\"unbalanced"
      "foo" "bar baz" ["qux", "unbalanced"] (by decide)⟩

/-- C3 as stated: the emitted engine query allegedly has the parenthesized
shape `("<exact-joined>") OR ("t1" OR … OR "tn")` whenever the query
tokenizes into two or more tokens. -/
def ClaimC3ParenthesizedShape : Prop :=
  ∀ (query t1 t2 : String) (ts : List String),
    ftsTokenize query = t1 :: t2 :: ts →
    escapeFtsQuery query =
      "(\"" ++ escapeDoubleQuotes (joinWith " " (t1 :: t2 :: ts)) ++ "\") OR (" ++
        joinWith " OR "
          ((t1 :: t2 :: ts).map (fun token => "\"" ++ escapeDoubleQuotes token ++ "\"")) ++
        ")"

/-- Counterexample to C3 as stated: for the query `a b` the code emits
`"a b" OR "a" OR "b"` with no parentheses, not `("a b") OR ("a" OR "b")`. -/
theorem escapeFtsQuery_shape_counterexample :
    ¬ ClaimC3ParenthesizedShape ∧
      escapeFtsQuery "a b" = "\"a b\" OR \"a\" OR \"b\"" := by
  constructor
  · intro h
    have := h "a b" "a" "b" [] (by decide)
    exact absurd this (by decide)
  · decide

/-! ### Hybrid search ranking (DocumentStore.calculateRRF / assignRanks /
findByContent) -/

/-- A row returned by the hybrid-search SQL statement, as typed in the
source (`RawSearchResult`): a document id plus optional per-index scores.
Scores are modelled as rationals; the score arithmetic in scope is exact. -/
structure RawSearchResult where
  id : Nat
  vec_score : Option ℚ
  fts_score : Option ℚ
deriving DecidableEq, Repr

/-- A search row after `assignRanks`: per-index ranks plus the fused RRF
score (`RankedResult` in the source). -/
structure RankedResult where
  id : Nat
  vec_score : Option ℚ
  fts_score : Option ℚ
  vec_rank : Option Nat
  fts_rank : Option Nat
  rrf_score : ℚ
deriving DecidableEq, Repr

/-- Transcription of `DocumentStore.calculateRRF` with `k = 60`: start from
zero and add `weight / (k + rank)` for each rank that is defined. -/
def calculateRRF (searchWeightVec searchWeightFts : ℚ)
    (vecRank ftsRank : Option Nat) : ℚ :=
  (match vecRank with
    | some r => searchWeightVec / (60 + (r : ℚ))
    | none => 0) +
  (match ftsRank with
    | some r => searchWeightFts / (60 + (r : ℚ))
    | none => 0)

/-- The ordering used to model JavaScript's stable
`sort((a, b) => score(b) - score(a))`: elements are tagged with their
original index; higher scores come first and ties keep the original order. -/
def sortIdxGe {α : Type} (score : α → ℚ) (a b : Nat × α) : Prop :=
  score b.2 < score a.2 ∨ (score a.2 = score b.2 ∧ a.1 ≤ b.1)

instance {α : Type} (score : α → ℚ) : DecidableRel (sortIdxGe score) :=
  fun a b => by unfold sortIdxGe; infer_instance

instance {α : Type} (score : α → ℚ) : IsTotal (Nat × α) (sortIdxGe score) where
  total a b := by
    unfold sortIdxGe
    rcases lt_trichotomy (score a.2) (score b.2) with h | h | h
    · exact Or.inr (Or.inl h)
    · rcases Nat.le_total a.1 b.1 with hi | hi
      · exact Or.inl (Or.inr ⟨h, hi⟩)
      · exact Or.inr (Or.inr ⟨h.symm, hi⟩)
    · exact Or.inl (Or.inl h)

instance {α : Type} (score : α → ℚ) : IsTrans (Nat × α) (sortIdxGe score) where
  trans a b c hab hbc := by
    unfold sortIdxGe at *
    rcases hab with hab | ⟨hab, hab2⟩
    · rcases hbc with hbc | ⟨hbc, _⟩
      · exact Or.inl (hbc.trans hab)
      · exact Or.inl (hbc ▸ hab)
    · rcases hbc with hbc | ⟨hbc, hbc2⟩
      · exact Or.inl (hab ▸ hbc)
      · exact Or.inr ⟨hab.trans hbc, hab2.trans hbc2⟩

/-- A stable descending sort by score: model of JavaScript's stable
`Array.prototype.sort` with comparator `(a, b) => score(b) - score(a)`. -/
def stableSortByDesc {α : Type} (score : α → ℚ) (l : List α) : List α :=
  (List.insertionSort (sortIdxGe score) l.enum).map Prod.snd

/-- First index of a row with the given id; models a lookup in the rank
`Map` that `assignRanks` populates with `forEach((result, index) =>
set(id, index + 1))` (row ids are unique in the result set). -/
def idxOfId (i : Nat) : List RawSearchResult → Option Nat
  | [] => none
  | r :: rest => if r.id = i then some 0 else (idxOfId i rest).map (· + 1)

/-- The vector-score candidates of `assignRanks`: rows with a defined
`vec_score`, sorted descending by it (stable). -/
def vecCandidates (results : List RawSearchResult) : List RawSearchResult :=
  stableSortByDesc (fun r => r.vec_score.getD 0)
    (results.filter (fun r => r.vec_score.isSome))

/-- The FTS-score candidates of `assignRanks`: rows with a defined
`fts_score`, sorted descending by it (stable). -/
def ftsCandidates (results : List RawSearchResult) : List RawSearchResult :=
  stableSortByDesc (fun r => r.fts_score.getD 0)
    (results.filter (fun r => r.fts_score.isSome))

/-- The vector rank `assignRanks` gives a row id: 1-based position in the
descending vector-score order, or `none` when the row has no vector score. -/
def vecRankOf (results : List RawSearchResult) (i : Nat) : Option Nat :=
  (idxOfId i (vecCandidates results)).map (· + 1)

/-- The FTS rank `assignRanks` gives a row id. -/
def ftsRankOf (results : List RawSearchResult) (i : Nat) : Option Nat :=
  (idxOfId i (ftsCandidates results)).map (· + 1)

/-- Transcription of `DocumentStore.assignRanks`: each row keeps its scores
and receives its per-index ranks and the fused RRF score. -/
def assignRanks (searchWeightVec searchWeightFts : ℚ)
    (results : List RawSearchResult) : List RankedResult :=
  results.map (fun r =>
    { id := r.id
      vec_score := r.vec_score
      fts_score := r.fts_score
      vec_rank := vecRankOf results r.id
      fts_rank := ftsRankOf results r.id
      rrf_score := calculateRRF searchWeightVec searchWeightFts
        (vecRankOf results r.id) (ftsRankOf results r.id) })

/-- The post-SQL part of the hybrid branch of `DocumentStore.findByContent`:
assign ranks, stable-sort descending by RRF score, and truncate to `limit`. -/
def hybridSearchResults (searchWeightVec searchWeightFts : ℚ)
    (rawResults : List RawSearchResult) (limit : Nat) : List RankedResult :=
  (stableSortByDesc (fun r => r.rrf_score)
    (assignRanks searchWeightVec searchWeightFts rawResults)).take limit

/-- A row of the `documents` table as seen by the hybrid-search SQL: its id
and whether its metadata types include `structural`. -/
structure DocRow where
  id : Nat
  structural : Bool
deriving DecidableEq, Repr

/-- Score lookup in a per-index result list `(id, value)`. -/
def lookupScore (i : Nat) (l : List (Nat × ℚ)) : Option ℚ :=
  (l.find? (fun p => p.1 = i)).map (fun p => p.2)

/-- The rows produced by the hybrid-search SQL statement of `findByContent`:
every non-structural document that appears in the vector k-NN results
(`vecResults` as `(id, distance)`) or the FTS results (`ftsResults` as
`(id, bm25)`) yields one row, with
`vec_score = COALESCE(1 / (1 + distance), 0)` and
`fts_score = COALESCE(-MIN(bm25, 0), 0)` — both always defined, `0` when the
document is missing from that index.  The `docs` list order models the
engine's unspecified row return order. -/
def sqlHybridRows (docs : List DocRow) (vecResults ftsResults : List (Nat × ℚ)) :
    List RawSearchResult :=
  (docs.filter (fun d =>
      ((lookupScore d.id vecResults).isSome ∨ (lookupScore d.id ftsResults).isSome) ∧
      d.structural = false)).map
    (fun d =>
      { id := d.id
        vec_score := some (match lookupScore d.id vecResults with
          | some dist => 1 / (1 + dist)
          | none => 0)
        fts_score := some (match lookupScore d.id ftsResults with
          | some b => -(min b 0)
          | none => 0) })

/-- The stable sort is a permutation of its input. -/
theorem stableSortByDesc_perm {α : Type} (score : α → ℚ) (l : List α) :
    (stableSortByDesc score l).Perm l := by
  unfold stableSortByDesc
  have h := (List.perm_insertionSort (sortIdxGe score) l.enum).map Prod.snd
  rwa [List.enum_map_snd] at h

/-- The stable sort output is descending in score. -/
theorem stableSortByDesc_pairwise {α : Type} (score : α → ℚ) (l : List α) :
    List.Pairwise (fun a b => score b ≤ score a) (stableSortByDesc score l) := by
  unfold stableSortByDesc
  refine List.Pairwise.map Prod.snd ?_ (List.sorted_insertionSort (sortIdxGe score) l.enum)
  intro a b hab
  rcases hab with h | ⟨h, _⟩
  · exact le_of_lt h
  · exact le_of_eq h.symm

theorem idxOfId_isSome_of_mem (r : RawSearchResult) (l : List RawSearchResult)
    (h : r ∈ l) : (idxOfId r.id l).isSome := by
  induction l with
  | nil => simp at h
  | cons x xs ih =>
    by_cases hx : x.id = r.id
    · simp [idxOfId, hx]
    · rcases List.mem_cons.mp h with h' | h'
      · exact absurd (h' ▸ rfl) hx
      · simp only [idxOfId, hx, if_false]
        simpa using ih h'

/-- In a score-descending list with unique ids, a strictly higher score means
a strictly earlier position. -/
theorem idxOfId_lt_of_score_lt (score : RawSearchResult → ℚ)
    (l : List RawSearchResult)
    (hpw : List.Pairwise (fun a b => score b ≤ score a) l)
    (hnd : (l.map RawSearchResult.id).Nodup)
    (a b : RawSearchResult) (ha : a ∈ l) (hb : b ∈ l) (hab : score b < score a) :
    ∃ i j, idxOfId a.id l = some i ∧ idxOfId b.id l = some j ∧ i < j := by
  induction l with
  | nil => simp at ha
  | cons x xs ih =>
    rw [List.pairwise_cons] at hpw
    obtain ⟨hx, hpw'⟩ := hpw
    rw [List.map_cons, List.nodup_cons] at hnd
    obtain ⟨hxid, hnd'⟩ := hnd
    rcases List.mem_cons.mp ha with ha' | ha'
    · subst ha'
      have hba : b ≠ a := fun h => absurd (h ▸ hab) (lt_irrefl _)
      have hb' : b ∈ xs := by
        rcases List.mem_cons.mp hb with h' | h'
        · exact absurd h' hba
        · exact h'
      have hbid : ¬ a.id = b.id := by
        intro h
        exact hxid (h ▸ List.mem_map_of_mem RawSearchResult.id hb')
      obtain ⟨j, hj⟩ := Option.isSome_iff_exists.mp (idxOfId_isSome_of_mem b xs hb')
      refine ⟨0, j + 1, by simp [idxOfId], ?_, Nat.succ_pos j⟩
      simp [idxOfId, hbid, hj]
    · have haid : ¬ x.id = a.id := by
        intro h
        exact hxid (h ▸ List.mem_map_of_mem RawSearchResult.id ha')
      have hb' : b ∈ xs := by
        rcases List.mem_cons.mp hb with h' | h'
        · subst h'
          exact absurd (lt_of_lt_of_le hab (hx a ha')) (lt_irrefl _)
        · exact h'
      have hbid : ¬ x.id = b.id := by
        intro h
        exact hxid (h ▸ List.mem_map_of_mem RawSearchResult.id hb')
      obtain ⟨i, j, hi, hj, hij⟩ := ih hpw' hnd' ha' hb'
      refine ⟨i + 1, j + 1, ?_, ?_, by omega⟩
      · simp [idxOfId, haid, hi]
      · simp [idxOfId, hbid, hj]

/-- Unique raw ids carry over to the sorted vector-candidate list. -/
theorem vecCandidates_nodup (results : List RawSearchResult)
    (hnd : (results.map RawSearchResult.id).Nodup) :
    ((vecCandidates results).map RawSearchResult.id).Nodup := by
  have h1 : ((results.filter (fun r => r.vec_score.isSome)).map
      RawSearchResult.id).Nodup :=
    hnd.sublist ((List.filter_sublist results).map RawSearchResult.id)
  exact ((stableSortByDesc_perm _ _).map RawSearchResult.id).nodup_iff.mpr h1

/-- Unique raw ids carry over to the sorted FTS-candidate list. -/
theorem ftsCandidates_nodup (results : List RawSearchResult)
    (hnd : (results.map RawSearchResult.id).Nodup) :
    ((ftsCandidates results).map RawSearchResult.id).Nodup := by
  have h1 : ((results.filter (fun r => r.fts_score.isSome)).map
      RawSearchResult.id).Nodup :=
    hnd.sublist ((List.filter_sublist results).map RawSearchResult.id)
  exact ((stableSortByDesc_perm _ _).map RawSearchResult.id).nodup_iff.mpr h1

/-- Every row with a defined vector score receives a vector rank, and ranks
are 1-based. -/
theorem vecRankOf_isSome_of_mem (results : List RawSearchResult)
    (r : RawSearchResult) (hr : r ∈ results) (h : r.vec_score.isSome) :
    ∃ n, vecRankOf results r.id = some n ∧ 1 ≤ n := by
  have hf : r ∈ results.filter (fun x => x.vec_score.isSome) :=
    List.mem_filter.mpr ⟨hr, h⟩
  have hm : r ∈ vecCandidates results := (stableSortByDesc_perm _ _).mem_iff.mpr hf
  obtain ⟨i, hi⟩ := Option.isSome_iff_exists.mp (idxOfId_isSome_of_mem r _ hm)
  exact ⟨i + 1, by simp [vecRankOf, hi], by omega⟩

/-- Every row with a defined FTS score receives an FTS rank, 1-based. -/
theorem ftsRankOf_isSome_of_mem (results : List RawSearchResult)
    (r : RawSearchResult) (hr : r ∈ results) (h : r.fts_score.isSome) :
    ∃ n, ftsRankOf results r.id = some n ∧ 1 ≤ n := by
  have hf : r ∈ results.filter (fun x => x.fts_score.isSome) :=
    List.mem_filter.mpr ⟨hr, h⟩
  have hm : r ∈ ftsCandidates results := (stableSortByDesc_perm _ _).mem_iff.mpr hf
  obtain ⟨i, hi⟩ := Option.isSome_iff_exists.mp (idxOfId_isSome_of_mem r _ hm)
  exact ⟨i + 1, by simp [ftsRankOf, hi], by omega⟩

/-- Vector ranks are assigned 1-based by strictly descending vector score:
a strictly better vector score gives a strictly smaller rank. -/
theorem vecRankOf_mono (results : List RawSearchResult)
    (hnd : (results.map RawSearchResult.id).Nodup)
    (a b : RawSearchResult) (ha : a ∈ results) (hb : b ∈ results)
    (hsa : a.vec_score.isSome) (hsb : b.vec_score.isSome)
    (h : b.vec_score.getD 0 < a.vec_score.getD 0) :
    ∃ ra rb, vecRankOf results a.id = some ra ∧
      vecRankOf results b.id = some rb ∧ ra < rb := by
  have haf : a ∈ vecCandidates results :=
    (stableSortByDesc_perm _ _).mem_iff.mpr (List.mem_filter.mpr ⟨ha, hsa⟩)
  have hbf : b ∈ vecCandidates results :=
    (stableSortByDesc_perm _ _).mem_iff.mpr (List.mem_filter.mpr ⟨hb, hsb⟩)
  obtain ⟨i, j, hi, hj, hij⟩ :=
    idxOfId_lt_of_score_lt (fun r => r.vec_score.getD 0) (vecCandidates results)
      (stableSortByDesc_pairwise _ _) (vecCandidates_nodup results hnd) a b haf hbf h
  exact ⟨i + 1, j + 1, by simp [vecRankOf, hi], by simp [vecRankOf, hj], by omega⟩

/-- FTS ranks are assigned 1-based by strictly descending FTS score. -/
theorem ftsRankOf_mono (results : List RawSearchResult)
    (hnd : (results.map RawSearchResult.id).Nodup)
    (a b : RawSearchResult) (ha : a ∈ results) (hb : b ∈ results)
    (hsa : a.fts_score.isSome) (hsb : b.fts_score.isSome)
    (h : b.fts_score.getD 0 < a.fts_score.getD 0) :
    ∃ ra rb, ftsRankOf results a.id = some ra ∧
      ftsRankOf results b.id = some rb ∧ ra < rb := by
  have haf : a ∈ ftsCandidates results :=
    (stableSortByDesc_perm _ _).mem_iff.mpr (List.mem_filter.mpr ⟨ha, hsa⟩)
  have hbf : b ∈ ftsCandidates results :=
    (stableSortByDesc_perm _ _).mem_iff.mpr (List.mem_filter.mpr ⟨hb, hsb⟩)
  obtain ⟨i, j, hi, hj, hij⟩ :=
    idxOfId_lt_of_score_lt (fun r => r.fts_score.getD 0) (ftsCandidates results)
      (stableSortByDesc_pairwise _ _) (ftsCandidates_nodup results hnd) a b haf hbf h
  exact ⟨i + 1, j + 1, by simp [ftsRankOf, hi], by simp [ftsRankOf, hj], by omega⟩

/-- Every row the hybrid SQL statement produces carries both scores
(`COALESCE` substitutes 0 when the document is missing from an index). -/
theorem sqlHybridRows_scores_defined (docs : List DocRow)
    (vecResults ftsResults : List (Nat × ℚ)) :
    ∀ r ∈ sqlHybridRows docs vecResults ftsResults,
      r.vec_score.isSome ∧ r.fts_score.isSome := by
  intro r hr
  simp only [sqlHybridRows, List.mem_map] at hr
  obtain ⟨d, _, rfl⟩ := hr
  exact ⟨rfl, rfl⟩

/-- The ranking specification of the hybrid search path: every returned row
carries 1-based ranks for both indexes and is scored
`wv/(60+vec_rank) + wf/(60+fts_rank)` with no term omitted; per-index ranks
are strictly monotone in the per-index scores; exactly `limit` rows (or all,
when fewer) are returned; and every withheld candidate scores no better than
every returned one. -/
def HybridRrfSpec (searchWeightVec searchWeightFts : ℚ)
    (rawResults : List RawSearchResult) (limit : Nat) : Prop :=
  (∀ r ∈ hybridSearchResults searchWeightVec searchWeightFts rawResults limit,
    ∃ vr fr, r.vec_rank = some vr ∧ r.fts_rank = some fr ∧ 1 ≤ vr ∧ 1 ≤ fr ∧
      r.rrf_score = searchWeightVec / (60 + (vr : ℚ)) +
        searchWeightFts / (60 + (fr : ℚ))) ∧
  (∀ a ∈ rawResults, ∀ b ∈ rawResults,
    b.vec_score.getD 0 < a.vec_score.getD 0 →
    ∃ ra rb, vecRankOf rawResults a.id = some ra ∧
      vecRankOf rawResults b.id = some rb ∧ ra < rb) ∧
  (∀ a ∈ rawResults, ∀ b ∈ rawResults,
    b.fts_score.getD 0 < a.fts_score.getD 0 →
    ∃ ra rb, ftsRankOf rawResults a.id = some ra ∧
      ftsRankOf rawResults b.id = some rb ∧ ra < rb) ∧
  ((hybridSearchResults searchWeightVec searchWeightFts rawResults limit).length =
    min limit rawResults.length) ∧
  (∀ x ∈ hybridSearchResults searchWeightVec searchWeightFts rawResults limit,
   ∀ y ∈ (stableSortByDesc (fun r => r.rrf_score)
      (assignRanks searchWeightVec searchWeightFts rawResults)).drop limit,
    y.rrf_score ≤ x.rrf_score)

/-- C5, amended: on the rows of the hybrid SQL statement every candidate is
scored with BOTH Reciprocal Rank Fusion terms — a candidate absent from one
index participates in that index's ranking with score 0 (the SQL `COALESCE`)
instead of having its term omitted — with 1-based ranks descending in
per-index score, and the returned rows are a largest-`rrf_score` selection of
size `min limit n`. -/
theorem findByContent_rrf_ranking (searchWeightVec searchWeightFts : ℚ)
    (docs : List DocRow) (vecResults ftsResults : List (Nat × ℚ)) (limit : Nat)
    (hnd : ((sqlHybridRows docs vecResults ftsResults).map RawSearchResult.id).Nodup) :
    HybridRrfSpec searchWeightVec searchWeightFts
      (sqlHybridRows docs vecResults ftsResults) limit := by
  set raw := sqlHybridRows docs vecResults ftsResults with hraw
  refine ⟨?_, ?_, ?_, ?_, ?_⟩
  · intro r hr
    have hsorted : r ∈ stableSortByDesc (fun r => r.rrf_score)
        (assignRanks searchWeightVec searchWeightFts raw) :=
      (List.take_sublist _ _).subset hr
    have hranked : r ∈ assignRanks searchWeightVec searchWeightFts raw :=
      (stableSortByDesc_perm _ _).mem_iff.mp hsorted
    simp only [assignRanks, List.mem_map] at hranked
    obtain ⟨rr, hrr, rfl⟩ := hranked
    obtain ⟨hva, hfa⟩ := sqlHybridRows_scores_defined docs vecResults ftsResults rr hrr
    obtain ⟨va, hva', hva1⟩ := vecRankOf_isSome_of_mem raw rr hrr hva
    obtain ⟨fa, hfa', hfa1⟩ := ftsRankOf_isSome_of_mem raw rr hrr hfa
    exact ⟨va, fa, by simp [hva'], by simp [hfa'], hva1, hfa1,
      by simp [hva', hfa', calculateRRF]⟩
  · intro a ha b hb h
    obtain ⟨hva, _⟩ := sqlHybridRows_scores_defined docs vecResults ftsResults a ha
    obtain ⟨hvb, _⟩ := sqlHybridRows_scores_defined docs vecResults ftsResults b hb
    exact vecRankOf_mono raw hnd a b ha hb hva hvb h
  · intro a ha b hb h
    obtain ⟨_, hfa⟩ := sqlHybridRows_scores_defined docs vecResults ftsResults a ha
    obtain ⟨_, hfb⟩ := sqlHybridRows_scores_defined docs vecResults ftsResults b hb
    exact ftsRankOf_mono raw hnd a b ha hb hfa hfb h
  · show (List.take limit _).length = _
    rw [List.length_take, (stableSortByDesc_perm _ _).length_eq]
    simp [assignRanks]
  · intro x hx y hy
    have hpw := stableSortByDesc_pairwise (fun r : RankedResult => r.rrf_score)
      (assignRanks searchWeightVec searchWeightFts raw)
    rw [← List.take_append_drop limit (stableSortByDesc (fun r => r.rrf_score)
      (assignRanks searchWeightVec searchWeightFts raw))] at hpw
    exact (List.pairwise_append.mp hpw).2.2 x hx y hy

/-- Witness for `findByContent_rrf_ranking`: a single non-structural document
that matches the vector index gives a two-term score with both ranks 1. -/
theorem findByContent_rrf_ranking_witness :
    ((sqlHybridRows [⟨1, false⟩] [(1, 0)] []).map RawSearchResult.id).Nodup ∧
      HybridRrfSpec 1 1 (sqlHybridRows [⟨1, false⟩] [(1, 0)] []) 1 :=
  ⟨by decide, findByContent_rrf_ranking 1 1 [⟨1, false⟩] [(1, 0)] [] 1 (by decide)⟩

/-- The claim's per-index rank over the nearest-neighbor result list itself:
1-based position by descending similarity `1 / (1 + distance)` (an id absent
from the list gets no rank). -/
def specIdxOfKey (i : Nat) : List (Nat × ℚ) → Option Nat
  | [] => none
  | p :: rest => if p.1 = i then some 0 else (specIdxOfKey i rest).map (· + 1)

/-- Rank of an id within the vector index results, by the claim's reading. -/
def specVecRank (vecResults : List (Nat × ℚ)) (i : Nat) : Option Nat :=
  (specIdxOfKey i (stableSortByDesc (fun p => 1 / (1 + p.2)) vecResults)).map (· + 1)

/-- Rank of an id within the FTS index results, by the claim's reading. -/
def specFtsRank (ftsResults : List (Nat × ℚ)) (i : Nat) : Option Nat :=
  (specIdxOfKey i (stableSortByDesc (fun p => -(min p.2 0)) ftsResults)).map (· + 1)

/-- The claim's scoring rule, following the spec's words: sum
`weight / (60 + rank)` over the indexes the candidate appears in, omitting
the term for an index in which the candidate does not appear. -/
def specRrfOmitting (searchWeightVec searchWeightFts : ℚ)
    (vecResults ftsResults : List (Nat × ℚ)) (i : Nat) : ℚ :=
  calculateRRF searchWeightVec searchWeightFts
    (specVecRank vecResults i) (specFtsRank ftsResults i)

/-- C5 as stated: every candidate returned by the hybrid search is allegedly
scored with the term omitted for an index in which it does not appear. -/
def ClaimC5OmittingFormula : Prop :=
  ∀ (searchWeightVec searchWeightFts : ℚ) (docs : List DocRow)
    (vecResults ftsResults : List (Nat × ℚ)) (limit : Nat),
    ∀ r ∈ hybridSearchResults searchWeightVec searchWeightFts
        (sqlHybridRows docs vecResults ftsResults) limit,
      r.rrf_score = specRrfOmitting searchWeightVec searchWeightFts
        vecResults ftsResults r.id

/-- Counterexample to C5 as stated: document 2 matches only the FTS index,
so the claim gives it score `1/61`; but the SQL `COALESCE` assigns it vector
score 0, the ranking then gives it vector rank 2, and the code scores it
`1/62 + 1/61 = 123/3782 ≠ 1/61` — the vector term is not omitted. -/
theorem findByContent_rrf_counterexample : ¬ ClaimC5OmittingFormula := by
  intro h
  have heval : hybridSearchResults 1 1
      (sqlHybridRows [⟨1, false⟩, ⟨2, false⟩] [(1, 0)] [(1, -1), (2, -5)]) 2 =
      [⟨1, some 1, some 1, some 1, some 2, mkRat 123 3782⟩,
       ⟨2, some 0, some 5, some 2, some 1, mkRat 123 3782⟩] := by
    norm_num [hybridSearchResults, sqlHybridRows, lookupScore, List.find?,
      assignRanks, vecRankOf, ftsRankOf, vecCandidates, ftsCandidates,
      stableSortByDesc, List.insertionSort, List.orderedInsert, sortIdxGe,
      List.enum, List.enumFrom, idxOfId, calculateRRF, Rat.mkRat_eq_div]
  have h2 := h 1 1 [⟨1, false⟩, ⟨2, false⟩] [(1, 0)] [(1, -1), (2, -5)] 2
    ⟨2, some 0, some 5, some 2, some 1, mkRat 123 3782⟩
    (by rw [heval]; simp)
  have h3 : specRrfOmitting 1 1 [(1, 0)] [(1, -1), (2, -5)]
      (2 : Nat) = mkRat 1 61 := by
    norm_num [specRrfOmitting, specVecRank, specFtsRank, specIdxOfKey,
      stableSortByDesc, List.insertionSort, List.orderedInsert, sortIdxGe,
      List.enum, List.enumFrom, calculateRRF, Rat.mkRat_eq_div]
  rw [h3] at h2
  exact absurd h2 (by decide)

/-- Rank assignment keeps the row ids unchanged. -/
theorem assignRanks_map_id (searchWeightVec searchWeightFts : ℚ)
    (results : List RawSearchResult) :
    (assignRanks searchWeightVec searchWeightFts results).map RankedResult.id =
      results.map RawSearchResult.id := by
  simp [assignRanks, List.map_map, Function.comp]

/-- Unique ids make the ranked rows pairwise distinct. -/
theorem assignRanks_nodup (searchWeightVec searchWeightFts : ℚ)
    (results : List RawSearchResult)
    (hnd : (results.map RawSearchResult.id).Nodup) :
    (assignRanks searchWeightVec searchWeightFts results).Nodup :=
  List.Nodup.of_map RankedResult.id
    (by rwa [assignRanks_map_id])

/-- C6, amended: `findByContent` applies a stable sort on the fused score
with no id-based tie-break; two candidates with equal RRF scores are returned
in the relative order in which the SQL engine returned their rows (ascending
id only when the rows happened to arrive in ascending-id order). -/
theorem hybridSearch_tie_preserves_row_order (searchWeightVec searchWeightFts : ℚ)
    (rawResults : List RawSearchResult) (limit : Nat)
    (hnd : (rawResults.map RawSearchResult.id).Nodup)
    (i j : Nat) (x y : RankedResult)
    (hx : (i, x) ∈ (assignRanks searchWeightVec searchWeightFts rawResults).enum)
    (hy : (j, y) ∈ (assignRanks searchWeightVec searchWeightFts rawResults).enum)
    (htie : x.rrf_score = y.rrf_score)
    (hsub : [x, y].Sublist
      (hybridSearchResults searchWeightVec searchWeightFts rawResults limit))
    (hne : x ≠ y) :
    i < j := by
  set ranked := assignRanks searchWeightVec searchWeightFts rawResults with hranked
  have hndr : ranked.Nodup := assignRanks_nodup _ _ _ hnd
  have hsub2 : [x, y].Sublist
      ((List.insertionSort (sortIdxGe (fun r => r.rrf_score)) ranked.enum).map
        Prod.snd) :=
    hsub.trans (List.take_sublist _ _)
  obtain ⟨l', hl', hmap⟩ := List.sublist_map_iff.mp hsub2
  match l', hl', hmap with
  | [p, q], hl', hmap =>
    simp only [List.map_cons, List.map_nil, List.cons.injEq, and_true] at hmap
    obtain ⟨hpx, hqy⟩ := hmap
    have hpq : sortIdxGe (fun r => r.rrf_score) p q := by
      have hpw : List.Pairwise (sortIdxGe (fun r : RankedResult => r.rrf_score))
          (List.insertionSort (sortIdxGe (fun r : RankedResult => r.rrf_score))
            ranked.enum) :=
        List.sorted_insertionSort _ _
      have hpw2 := List.Pairwise.sublist hl' hpw
      rw [List.pairwise_cons] at hpw2
      exact hpw2.1 q (by simp)
    have hpmem : p ∈ ranked.enum :=
      (List.perm_insertionSort _ _).mem_iff.mp (hl'.subset (by simp))
    have hqmem : q ∈ ranked.enum :=
      (List.perm_insertionSort _ _).mem_iff.mp (hl'.subset (by simp))
    have hgp : ranked.get? p.1 = some x := by
      rw [hpx]; exact List.mem_enum_iff_get?.mp hpmem
    have hgq : ranked.get? q.1 = some y := by
      rw [hqy]; exact List.mem_enum_iff_get?.mp hqmem
    have hgi : ranked.get? i = some x := List.mem_enum_iff_get?.mp hx
    have hgj : ranked.get? j = some y := List.mem_enum_iff_get?.mp hy
    have hilen : i < ranked.length := by
      obtain ⟨hlen, _⟩ := List.get?_eq_some.mp hgi
      exact hlen
    have hjlen : j < ranked.length := by
      obtain ⟨hlen, _⟩ := List.get?_eq_some.mp hgj
      exact hlen
    have hip : i = p.1 := List.get?_inj hilen hndr (hgi.trans hgp.symm)
    have hjq : j = q.1 := List.get?_inj hjlen hndr (hgj.trans hgq.symm)
    have hij : i ≠ j := by
      intro he
      subst he
      exact hne (Option.some.inj (hgi.symm.trans hgj))
    rcases hpq with hlt | ⟨_, hle⟩
    · simp only at hlt
      rw [← hpx, ← hqy, htie] at hlt
      exact absurd hlt (lt_irrefl _)
    · omega

/-- Evaluation of the hybrid pipeline on two tied candidates whose SQL rows
arrive in descending-id order: the tie keeps the row order (ids 2 then 1). -/
theorem hybridTieEvalDescending :
    hybridSearchResults 1 1
      (sqlHybridRows [⟨2, false⟩, ⟨1, false⟩] [(1, 0)] [(2, -1)]) 2 =
      [⟨2, some 0, some 1, some 2, some 1, mkRat 123 3782⟩,
       ⟨1, some 1, some 0, some 1, some 2, mkRat 123 3782⟩] := by
  norm_num [hybridSearchResults, sqlHybridRows, lookupScore, List.find?,
    assignRanks, vecRankOf, ftsRankOf, vecCandidates, ftsCandidates,
    stableSortByDesc, List.insertionSort, List.orderedInsert, sortIdxGe,
    List.enum, List.enumFrom, idxOfId, calculateRRF, Rat.mkRat_eq_div]

/-- Evaluation of the rank assignment on the same two tied candidates with
the SQL rows in ascending-id order. -/
theorem hybridTieEvalAscending :
    assignRanks 1 1 (sqlHybridRows [⟨1, false⟩, ⟨2, false⟩] [(1, 0)] [(2, -1)]) =
      [⟨1, some 1, some 0, some 1, some 2, mkRat 123 3782⟩,
       ⟨2, some 0, some 1, some 2, some 1, mkRat 123 3782⟩] := by
  norm_num [sqlHybridRows, lookupScore, List.find?,
    assignRanks, vecRankOf, ftsRankOf, vecCandidates, ftsCandidates,
    stableSortByDesc, List.insertionSort, List.orderedInsert, sortIdxGe,
    List.enum, List.enumFrom, idxOfId, calculateRRF, Rat.mkRat_eq_div]

/-- Evaluation of the full pipeline in the ascending-id row order. -/
theorem hybridTieEvalAscendingFull :
    hybridSearchResults 1 1
      (sqlHybridRows [⟨1, false⟩, ⟨2, false⟩] [(1, 0)] [(2, -1)]) 2 =
      [⟨1, some 1, some 0, some 1, some 2, mkRat 123 3782⟩,
       ⟨2, some 0, some 1, some 2, some 1, mkRat 123 3782⟩] := by
  norm_num [hybridSearchResults, sqlHybridRows, lookupScore, List.find?,
    assignRanks, vecRankOf, ftsRankOf, vecCandidates, ftsCandidates,
    stableSortByDesc, List.insertionSort, List.orderedInsert, sortIdxGe,
    List.enum, List.enumFrom, idxOfId, calculateRRF, Rat.mkRat_eq_div]

/-- Witness for `hybridSearch_tie_preserves_row_order`: with the tied rows
arriving in ascending-id order, the earlier row stays first. -/
theorem hybridSearch_tie_preserves_row_order_witness :
    ((sqlHybridRows [⟨1, false⟩, ⟨2, false⟩] [(1, 0)]
        [(2, -1)]).map RawSearchResult.id).Nodup ∧
    ((0 : Nat), (⟨1, some 1, some 0, some 1, some 2, mkRat 123 3782⟩ : RankedResult)) ∈
      (assignRanks 1 1 (sqlHybridRows [⟨1, false⟩, ⟨2, false⟩] [(1, 0)] [(2, -1)])).enum ∧
    ((1 : Nat), (⟨2, some 0, some 1, some 2, some 1, mkRat 123 3782⟩ : RankedResult)) ∈
      (assignRanks 1 1 (sqlHybridRows [⟨1, false⟩, ⟨2, false⟩] [(1, 0)] [(2, -1)])).enum ∧
    (⟨1, some 1, some 0, some 1, some 2, mkRat 123 3782⟩ : RankedResult).rrf_score =
      (⟨2, some 0, some 1, some 2, some 1, mkRat 123 3782⟩ : RankedResult).rrf_score ∧
    [(⟨1, some 1, some 0, some 1, some 2, mkRat 123 3782⟩ : RankedResult),
     ⟨2, some 0, some 1, some 2, some 1, mkRat 123 3782⟩].Sublist
      (hybridSearchResults 1 1
        (sqlHybridRows [⟨1, false⟩, ⟨2, false⟩] [(1, 0)] [(2, -1)]) 2) ∧
    (⟨1, some 1, some 0, some 1, some 2, mkRat 123 3782⟩ : RankedResult) ≠
      ⟨2, some 0, some 1, some 2, some 1, mkRat 123 3782⟩ ∧
    (0 : Nat) < 1 :=
  ⟨by decide,
   by rw [hybridTieEvalAscending]; decide,
   by rw [hybridTieEvalAscending]; decide,
   rfl,
   by rw [hybridTieEvalAscendingFull],
   by decide,
   hybridSearch_tie_preserves_row_order 1 1
     (sqlHybridRows [⟨1, false⟩, ⟨2, false⟩] [(1, 0)] [(2, -1)]) 2
     (by decide) 0 1
     ⟨1, some 1, some 0, some 1, some 2, mkRat 123 3782⟩
     ⟨2, some 0, some 1, some 2, some 1, mkRat 123 3782⟩
     (by rw [hybridTieEvalAscending]; decide)
     (by rw [hybridTieEvalAscending]; decide)
     rfl
     (by rw [hybridTieEvalAscendingFull])
     (by decide)⟩

/-- C6 as stated: in the returned ordering, candidates with equal fused
scores allegedly appear in ascending chunk-id order. -/
def ClaimC6TieByAscendingId : Prop :=
  ∀ (searchWeightVec searchWeightFts : ℚ) (docs : List DocRow)
    (vecResults ftsResults : List (Nat × ℚ)) (limit : Nat),
    List.Pairwise (fun x y => x.rrf_score = y.rrf_score → x.id < y.id)
      (hybridSearchResults searchWeightVec searchWeightFts
        (sqlHybridRows docs vecResults ftsResults) limit)

/-- Counterexample to C6 as stated: two candidates tie exactly
(`1/61 + 1/62` each) and the code returns them in the SQL row order — here
descending ids 2, 1 — because the stable sort has no id tie-break. -/
theorem findByContent_tie_counterexample : ¬ ClaimC6TieByAscendingId := by
  intro h
  have h2 := h 1 1 [⟨2, false⟩, ⟨1, false⟩] [(1, 0)] [(2, -1)] 2
  rw [hybridTieEvalDescending, List.pairwise_cons] at h2
  have h3 := h2.1 ⟨1, some 1, some 0, some 1, some 2, mkRat 123 3782⟩ (by simp) rfl
  exact absurd h3 (by decide)

/-! ### The document store tables and write operations (DocumentStore) -/

/-- Character-wise lowercasing; models `String.prototype.toLowerCase`. -/
def toLowerStr (s : String) : String := ⟨s.data.map Char.toLower⟩

/-- A row of the `libraries` table. -/
structure DbLibraryRow where
  id : Nat
  name : String
deriving DecidableEq, Repr

/-- A row of the `versions` table.  `name` is nullable in the schema; queries
compare it through `COALESCE(v.name, '')`. -/
structure DbVersionRow where
  id : Nat
  library_id : Nat
  name : Option String
  status : String
deriving DecidableEq, Repr

/-- A row of the `pages` table. -/
structure DbPageRow where
  id : Nat
  version_id : Nat
  url : String
  title : String
  etag : Option String
  last_modified : Option String
  content_type : Option String
  depth : Nat
deriving DecidableEq, Repr

/-- The chunk metadata JSON persisted with each document row. -/
structure DbChunkMetadata where
  types : List String
  level : Nat
  path : List String
deriving DecidableEq, Repr

/-- A row of the `documents` table.  The embedding column is not modelled:
the claims in scope concern the page and chunk rows and the embedding
batch calls, not the stored vectors. -/
structure DbDocumentRow where
  id : Nat
  page_id : Nat
  content : String
  metadata : DbChunkMetadata
  sort_order : Nat
deriving DecidableEq, Repr

/-- The SQLite database state of the document store: the four tables plus
the next rowid of each (SQLite assigns increasing rowids). -/
structure StoreState where
  libraries : List DbLibraryRow
  versions : List DbVersionRow
  pages : List DbPageRow
  documents : List DbDocumentRow
  nextLibraryId : Nat
  nextVersionId : Nat
  nextPageId : Nat
  nextDocumentId : Nat
deriving DecidableEq, Repr

/-- Modelled from the spec: `denormalizeVersionName` (its module is not in
the provided sources) maps a user version string to the stored
`versions.name` value; per the source comment in `resolveVersionId`
("storing '' ensures UNIQUE constraint applies", reusing an existing
unversioned entry) the empty string is stored as itself rather than NULL. -/
def denormalizeVersionName (v : String) : Option String := some v

/-- The `insertLibrary` statement:
`INSERT INTO libraries (name) VALUES (?) ON CONFLICT(name) DO NOTHING`. -/
def insertLibrary (s : StoreState) (name : String) : StoreState :=
  if s.libraries.any (fun l => l.name = name) then s
  else { s with
    libraries := s.libraries ++ [{ id := s.nextLibraryId, name := name }]
    nextLibraryId := s.nextLibraryId + 1 }

/-- The `getLibraryIdByName` statement. -/
def getLibraryIdByName (s : StoreState) (name : String) : Option Nat :=
  (s.libraries.find? (fun l => l.name = name)).map (fun l => l.id)

/-- The `insertVersion` statement:
`INSERT INTO versions (library_id, name, status) VALUES (?, ?, 'not_indexed')
ON CONFLICT(library_id, name) DO NOTHING`. -/
def insertVersion (s : StoreState) (libraryId : Nat) (name : Option String) :
    StoreState :=
  if s.versions.any (fun v => v.library_id = libraryId ∧ v.name = name) then s
  else { s with
    versions := s.versions ++
      [{ id := s.nextVersionId, library_id := libraryId, name := name,
         status := "not_indexed" }]
    nextVersionId := s.nextVersionId + 1 }

/-- The `resolveVersionId` lookup statement:
`SELECT id FROM versions WHERE library_id = ? AND name = ?`. -/
def getVersionIdByName (s : StoreState) (libraryId : Nat) (name : Option String) :
    Option Nat :=
  (s.versions.find? (fun v => v.library_id = libraryId ∧ v.name = name)).map
    (fun v => v.id)

/-- Transcription of `DocumentStore.resolveVersionId`: lowercase the library
name, denormalize the version, insert-or-get both rows.  The `none` branches
model the `StoreError` throws, which cannot fire right after the inserts. -/
def resolveVersionId (s : StoreState) (library version : String) :
    StoreState × Nat :=
  let normalizedLibrary := toLowerStr library
  let normalizedVersion := denormalizeVersionName (toLowerStr version)
  let s1 := insertLibrary s normalizedLibrary
  match getLibraryIdByName s1 normalizedLibrary with
  | none => (s1, 0)
  | some libraryId =>
    let s2 := insertVersion s1 libraryId normalizedVersion
    match getVersionIdByName s2 libraryId normalizedVersion with
    | none => (s2, 0)
    | some versionId => (s2, versionId)

/-- The `getPageId` statement:
`SELECT id FROM pages WHERE version_id = ? AND url = ?`. -/
def getPageId (s : StoreState) (versionId : Nat) (url : String) : Option Nat :=
  (s.pages.find? (fun p => p.version_id = versionId ∧ p.url = url)).map
    (fun p => p.id)

/-- The `deleteDocumentsByPageId` statement, returning the changed-row
count. -/
def deleteDocumentsByPageId (s : StoreState) (pageId : Nat) : StoreState × Nat :=
  (({ s with documents := s.documents.filter (fun d => ¬ d.page_id = pageId) }),
   (s.documents.filter (fun d => d.page_id = pageId)).length)

/-- The `insertPage` upsert statement: insert, or on conflict of
`(version_id, url)` update title, content type, etag, last-modified and
depth while preserving the row identity. -/
def insertPage (s : StoreState) (versionId : Nat) (url title : String)
    (etag lastModified contentType : Option String) (depth : Nat) : StoreState :=
  if s.pages.any (fun p => p.version_id = versionId ∧ p.url = url) then
    { s with pages := s.pages.map (fun p =>
        if p.version_id = versionId ∧ p.url = url then
          { p with title := title, content_type := contentType, etag := etag,
                   last_modified := lastModified, depth := depth }
        else p) }
  else
    { s with
      pages := s.pages ++
        [{ id := s.nextPageId, version_id := versionId, url := url,
           title := title, etag := etag, last_modified := lastModified,
           content_type := contentType, depth := depth }]
      nextPageId := s.nextPageId + 1 }

/-- The `insertDocument` statement: a fresh rowid, the chunk body, metadata
JSON and the page-local `sort_order`. -/
def insertDocument (s : StoreState) (pageId : Nat) (content : String)
    (metadata : DbChunkMetadata) (sortOrder : Nat) : StoreState :=
  { s with
    documents := s.documents ++
      [{ id := s.nextDocumentId, page_id := pageId, content := content,
         metadata := metadata, sort_order := sortOrder }]
    nextDocumentId := s.nextDocumentId + 1 }

/-- The scrape result consumed by `addDocuments` (the fields it reads). -/
structure ScrapeResult where
  url : String
  title : String
  contentType : Option String
  etag : Option String
  lastModified : Option String
  chunks : List Chunk
deriving DecidableEq, Repr

/-- The embedding input of a chunk: the metadata header
`<title>…</title>\n<url>…</url>\n<path>…</path>\n` prepended to the body. -/
def chunkEmbeddingText (title url : String) (chunk : Chunk) : String :=
  "<title>" ++ title ++ "</title>\n<url>" ++ url ++ "</url>\n<path>" ++
    joinWith " / " chunk.sect.path ++ "</path>\n" ++ chunk.content

/-- The batching loop of `addDocuments`: flush the current batch before a
text that would push it past `maxBatchChars` (unless it is empty), then add
the text, and flush whenever the count reaches `batchSize`; a final partial
batch is flushed after the loop. -/
def buildEmbeddingBatchesGo (maxBatchChars batchSize : Nat) :
    List String → List String → Nat → List (List String) → List (List String)
  | [], currentBatch, _, batches =>
    if currentBatch = [] then batches else batches ++ [currentBatch]
  | text :: rest, currentBatch, currentBatchSize, batches =>
    let flushed :=
      if maxBatchChars < currentBatchSize + text.length ∧ ¬ currentBatch = [] then
        ([], 0, batches ++ [currentBatch])
      else (currentBatch, currentBatchSize, batches)
    let newBatch := flushed.1 ++ [text]
    let newSize := flushed.2.1 + text.length
    if batchSize ≤ newBatch.length then
      buildEmbeddingBatchesGo maxBatchChars batchSize rest [] 0
        (flushed.2.2 ++ [newBatch])
    else
      buildEmbeddingBatchesGo maxBatchChars batchSize rest newBatch newSize
        flushed.2.2

/-- The embedding batches `addDocuments` sends for a list of texts. -/
def buildEmbeddingBatches (maxBatchChars batchSize : Nat) (texts : List String) :
    List (List String) :=
  buildEmbeddingBatchesGo maxBatchChars batchSize texts [] 0 []

/-- The chunk-insertion loop inside the `addDocuments` transaction:
`sort_order = i` in input order. -/
def insertChunksFrom (s : StoreState) (pageId : Nat) (i : Nat) :
    List Chunk → StoreState
  | [] => s
  | chunk :: rest =>
    insertChunksFrom
      (insertDocument s pageId chunk.content
        ⟨chunk.types, chunk.sect.level, chunk.sect.path⟩ i)
      pageId (i + 1) rest

/-- The transaction body of `addDocuments`: upsert the page row, re-read the
page id, then insert the chunks in input order with `sort_order = i`.  The
`none` branch models the `StoreError` throw, which rolls the transaction
back to its start. -/
def addDocumentsTxn (s : StoreState) (versionId : Nat) (depth : Nat)
    (result : ScrapeResult) : StoreState :=
  let s1 := insertPage s versionId result.url result.title result.etag
    result.lastModified result.contentType depth
  match getPageId s1 versionId result.url with
  | none => s
  | some pageId => insertChunksFrom s1 pageId 0 result.chunks

/-- The pre-transaction phase of `addDocuments` that runs in autocommit
mode: resolve the version id (creating library/version rows), then—if the
page already exists—delete its previous document rows.  Each of these
statements commits on its own, before the insert transaction begins. -/
def addDocumentsPhase1 (s : StoreState) (library version : String)
    (result : ScrapeResult) : StoreState × Nat :=
  let resolved := resolveVersionId s library version
  match getPageId resolved.1 resolved.2 result.url with
  | some pageId => ((deleteDocumentsByPageId resolved.1 pageId).1, resolved.2)
  | none => resolved

/-- Transcription of `DocumentStore.addDocuments` over the store state: an
empty chunk list returns immediately; otherwise compute the embedding
batches (when vector search is enabled), run the autocommit phase, then the
insert transaction.  Returns the new state and the embedding batch calls
made. -/
def addDocuments (s : StoreState) (vectorSearchEnabled : Bool)
    (embeddingBatchChars embeddingBatchSize : Nat)
    (library version : String) (depth : Nat) (result : ScrapeResult) :
    StoreState × List (List String) :=
  if result.chunks = [] then (s, [])
  else
    let batches :=
      if vectorSearchEnabled then
        buildEmbeddingBatches embeddingBatchChars embeddingBatchSize
          (result.chunks.map (chunkEmbeddingText result.title result.url))
      else []
    let phase1 := addDocumentsPhase1 s library version result
    (addDocumentsTxn phase1.1 phase1.2 depth result, batches)

/-- The observable (committed) states during one `addDocuments` call: the
initial state, the state after `resolveVersionId`, the state after the
pre-transaction delete, and the state after the insert transaction.  The
delete commits separately because it runs outside `db.transaction`. -/
def addDocumentsObservableStates (s : StoreState) (library version : String)
    (depth : Nat) (result : ScrapeResult) : List StoreState :=
  if result.chunks = [] then [s]
  else
    let phase1 := addDocumentsPhase1 s library version result
    [s, (resolveVersionId s library version).1, phase1.1,
     addDocumentsTxn phase1.1 phase1.2 depth result]

/-- The document rows of one page, in rowid (insertion) order. -/
def pageChunks (s : StoreState) (pageId : Nat) : List DbDocumentRow :=
  s.documents.filter (fun d => d.page_id = pageId)

/-- The chunk bodies the store holds for a `(version, url)` page, in rowid
order; empty when the page row does not exist. -/
def pageContentsForUrl (s : StoreState) (versionId : Nat) (url : String) :
    List String :=
  match getPageId s versionId url with
  | some pageId => (pageChunks s pageId).map (fun d => d.content)
  | none => []

/-- The `versions JOIN libraries` match used by the deletion and lookup
statements: `l.name = ? AND COALESCE(v.name, '') = COALESCE(?, '')`. -/
def versionMatches (s : StoreState) (library version : String)
    (v : DbVersionRow) : Bool :=
  s.libraries.any (fun l => v.library_id = l.id ∧ l.name = library) &&
    (v.name.getD "" = version)

/-- The `pages JOIN versions JOIN libraries` match used by the deletion and
existence statements. -/
def pageMatches (s : StoreState) (library version : String)
    (p : DbPageRow) : Bool :=
  s.versions.any (fun v => p.version_id = v.id ∧ versionMatches s library version v)

/-- The `deleteDocuments` statement: delete every document whose page belongs
to the given library/version; returns the changed-row count. -/
def deleteDocumentsStmt (s : StoreState) (library version : String) :
    StoreState × Nat :=
  (({ s with documents := s.documents.filter (fun d =>
      ¬ s.pages.any (fun p => d.page_id = p.id ∧ pageMatches s library version p)) }),
   (s.documents.filter (fun d =>
      s.pages.any (fun p => d.page_id = p.id ∧ pageMatches s library version p))).length)

/-- The `deletePages` statement: delete every page of the library/version. -/
def deletePagesStmt (s : StoreState) (library version : String) : StoreState :=
  { s with pages := s.pages.filter (fun p =>
      ¬ s.versions.any (fun v => p.version_id = v.id ∧ versionMatches s library version v)) }

/-- Transcription of `DocumentStore.deletePages` (the method): delete the
documents, then the pages, returning the document changed-row count. -/
def deletePages (s : StoreState) (library version : String) : StoreState × Nat :=
  let normalizedVersion := toLowerStr version
  let deleted := deleteDocumentsStmt s (toLowerStr library) normalizedVersion
  (deletePagesStmt deleted.1 (toLowerStr library) normalizedVersion, deleted.2)

/-- The `getVersionId` statement: the id and library id of the first version
row matching the library name and coalesced version name. -/
def getVersionIdStmt (s : StoreState) (library version : String) :
    Option (Nat × Nat) :=
  (s.versions.find? (fun v => versionMatches s library version v)).map
    (fun v => (v.id, v.library_id))

/-- The `deleteVersionById` statement with its changed-row count. -/
def deleteVersionById (s : StoreState) (versionId : Nat) : StoreState × Nat :=
  (({ s with versions := s.versions.filter (fun v => ¬ v.id = versionId) }),
   (s.versions.filter (fun v => v.id = versionId)).length)

/-- The `countVersionsByLibraryId` statement. -/
def countVersionsByLibraryId (s : StoreState) (libraryId : Nat) : Nat :=
  (s.versions.filter (fun v => v.library_id = libraryId)).length

/-- The `deleteLibraryById` statement with its changed-row count. -/
def deleteLibraryById (s : StoreState) (libraryId : Nat) : StoreState × Nat :=
  (({ s with libraries := s.libraries.filter (fun l => ¬ l.id = libraryId) }),
   (s.libraries.filter (fun l => l.id = libraryId)).length)

/-- Transcription of `DocumentStore.checkDocumentExists`: does any document
row join through pages, versions and libraries to the given names? -/
def checkDocumentExists (s : StoreState) (library version : String) : Bool :=
  s.documents.any (fun d => s.pages.any (fun p =>
    d.page_id = p.id ∧ pageMatches s (toLowerStr library) (toLowerStr version) p))

/-- The return value of `removeVersion`. -/
structure RemoveVersionResult where
  documentsDeleted : Nat
  versionDeleted : Bool
  libraryDeleted : Bool
deriving DecidableEq, Repr

/-- Transcription of `DocumentStore.removeVersion`: look up the version; on a
miss return zero counts; otherwise delete documents (via `deletePages`),
run the page deletion again, delete the version row, and—when requested and
the version row was deleted—delete the library if no versions remain. -/
def removeVersion (s : StoreState) (library version : String)
    (removeLibraryIfEmpty : Bool) : StoreState × RemoveVersionResult :=
  let normalizedLibrary := toLowerStr library
  let normalizedVersion := toLowerStr version
  match getVersionIdStmt s normalizedLibrary normalizedVersion with
  | none => (s, ⟨0, false, false⟩)
  | some (versionId, libraryId) =>
    let afterDocs := deletePages s library version
    let s2 := deletePagesStmt afterDocs.1 normalizedLibrary normalizedVersion
    let afterVersion := deleteVersionById s2 versionId
    let versionDeleted : Bool := decide (0 < afterVersion.2)
    let afterLibrary :=
      if removeLibraryIfEmpty ∧ versionDeleted then
        if countVersionsByLibraryId afterVersion.1 libraryId = 0 then
          let deleted := deleteLibraryById afterVersion.1 libraryId
          (deleted.1, decide (0 < deleted.2))
        else (afterVersion.1, false)
      else (afterVersion.1, false)
    (afterLibrary.1, ⟨afterDocs.2, versionDeleted, afterLibrary.2⟩)

/-- C10: a scrape result with no chunks makes `addDocuments` return
immediately: the store state is unchanged — no page upsert, no deletion of
previously stored chunks — and no embedding batch is sent. -/
theorem addDocuments_empty_chunks_noop (s : StoreState)
    (vectorSearchEnabled : Bool) (embeddingBatchChars embeddingBatchSize : Nat)
    (library version : String) (depth : Nat) (url title : String)
    (contentType etag lastModified : Option String) :
    addDocuments s vectorSearchEnabled embeddingBatchChars embeddingBatchSize
      library version depth ⟨url, title, contentType, etag, lastModified, []⟩ =
      (s, []) := by
  simp [addDocuments]

/-- C1 as stated: at every observable point of an `addDocuments` call the
page allegedly references either the complete old chunk set or the complete
new one. -/
def ClaimC1AtomicReplacement : Prop :=
  ∀ (s : StoreState) (library version : String) (depth : Nat)
    (result : ScrapeResult), result.chunks ≠ [] →
    ∀ st ∈ addDocumentsObservableStates s library version depth result,
      pageContentsForUrl st (resolveVersionId s library version).2 result.url =
        pageContentsForUrl s (resolveVersionId s library version).2 result.url ∨
      pageContentsForUrl st (resolveVersionId s library version).2 result.url =
        result.chunks.map (fun c => c.content)

/-- Counterexample to C1 as stated: re-ingesting url `u` (old chunk set
`["old"]`, new chunk set `["new"]`), the state after the pre-transaction
delete — which has committed, since the delete runs outside
`db.transaction` — has the page referencing the empty chunk set, which is
neither the old nor the new one. -/
theorem addDocuments_atomicity_counterexample : ¬ ClaimC1AtomicReplacement := by
  intro h
  have h2 := h
    ⟨[⟨1, "lib"⟩], [⟨1, 1, some "1.0", "completed"⟩],
     [⟨1, 1, "u", "t", none, none, none, 0⟩],
     [⟨1, 1, "old", ⟨["text"], 3, []⟩, 0⟩], 2, 2, 2, 2⟩
    "lib" "1.0" 0 ⟨"u", "t", none, none, none, [⟨["text"], "new", ⟨3, []⟩⟩]⟩
    (by decide)
    (addDocumentsPhase1
      ⟨[⟨1, "lib"⟩], [⟨1, 1, some "1.0", "completed"⟩],
       [⟨1, 1, "u", "t", none, none, none, 0⟩],
       [⟨1, 1, "old", ⟨["text"], 3, []⟩, 0⟩], 2, 2, 2, 2⟩
      "lib" "1.0" ⟨"u", "t", none, none, none, [⟨["text"], "new", ⟨3, []⟩⟩]⟩).1
    (by decide)
  rcases h2 with h2 | h2 <;> exact absurd h2 (by decide)

/-- `insertLibrary` only touches the library table. -/
theorem insertLibrary_frame (s : StoreState) (name : String) :
    (insertLibrary s name).versions = s.versions ∧
    (insertLibrary s name).pages = s.pages ∧
    (insertLibrary s name).documents = s.documents ∧
    (insertLibrary s name).nextPageId = s.nextPageId ∧
    (insertLibrary s name).nextDocumentId = s.nextDocumentId := by
  unfold insertLibrary
  split_ifs <;> simp

/-- `insertVersion` only touches the version table. -/
theorem insertVersion_frame (s : StoreState) (libraryId : Nat)
    (name : Option String) :
    (insertVersion s libraryId name).libraries = s.libraries ∧
    (insertVersion s libraryId name).pages = s.pages ∧
    (insertVersion s libraryId name).documents = s.documents ∧
    (insertVersion s libraryId name).nextPageId = s.nextPageId ∧
    (insertVersion s libraryId name).nextDocumentId = s.nextDocumentId := by
  unfold insertVersion
  split_ifs <;> simp

/-- `resolveVersionId` only touches the library and version tables. -/
theorem resolveVersionId_frame (s : StoreState) (library version : String) :
    ((resolveVersionId s library version).1).pages = s.pages ∧
    ((resolveVersionId s library version).1).documents = s.documents ∧
    ((resolveVersionId s library version).1).nextPageId = s.nextPageId ∧
    ((resolveVersionId s library version).1).nextDocumentId = s.nextDocumentId := by
  obtain ⟨hL1, hL2, hL3, hL4, hL5⟩ := insertLibrary_frame s (toLowerStr library)
  simp only [resolveVersionId]
  cases h1 : getLibraryIdByName (insertLibrary s (toLowerStr library))
      (toLowerStr library) with
  | none => exact ⟨hL2, hL3, hL4, hL5⟩
  | some libraryId =>
    dsimp only
    obtain ⟨hV1, hV2, hV3, hV4, hV5⟩ := insertVersion_frame
      (insertLibrary s (toLowerStr library)) libraryId
      (denormalizeVersionName (toLowerStr version))
    cases h2 : getVersionIdByName
        (insertVersion (insertLibrary s (toLowerStr library)) libraryId
          (denormalizeVersionName (toLowerStr version))) libraryId
        (denormalizeVersionName (toLowerStr version)) with
    | none => exact ⟨hV2.trans hL2, hV3.trans hL3, hV4.trans hL4, hV5.trans hL5⟩
    | some versionId =>
      exact ⟨hV2.trans hL2, hV3.trans hL3, hV4.trans hL4, hV5.trans hL5⟩

/-- After `insertLibrary`, the library name resolves to an id. -/
theorem insertLibrary_find (s : StoreState) (name : String) :
    ∃ lid, getLibraryIdByName (insertLibrary s name) name = some lid := by
  unfold insertLibrary getLibraryIdByName
  split_ifs with h
  · have hs : (s.libraries.find? (fun l => l.name = name)).isSome :=
      List.find?_isSome.mpr (List.any_eq_true.mp h)
    obtain ⟨l', hl'⟩ := Option.isSome_iff_exists.mp hs
    exact ⟨l'.id, by rw [hl']; rfl⟩
  · refine ⟨s.nextLibraryId, ?_⟩
    have hnone : s.libraries.find? (fun l => l.name = name) = none := by
      rw [List.find?_eq_none]
      intro x hx
      exact fun hx2 => h (List.any_eq_true.mpr ⟨x, hx, hx2⟩)
    show ((List.find? _ (s.libraries ++ [_])).map _) = _
    have hsingle : List.find? (fun l : DbLibraryRow => decide (l.name = name))
        [⟨s.nextLibraryId, name⟩] = some ⟨s.nextLibraryId, name⟩ := by simp
    rw [List.find?_append, hnone, Option.none_or, hsingle]
    rfl

/-- After `insertVersion`, the `(library_id, name)` pair resolves to an id. -/
theorem insertVersion_find (s : StoreState) (libraryId : Nat)
    (name : Option String) :
    ∃ vid, getVersionIdByName (insertVersion s libraryId name) libraryId name =
      some vid := by
  unfold insertVersion getVersionIdByName
  split_ifs with h
  · have hs : (s.versions.find?
        (fun v => decide (v.library_id = libraryId ∧ v.name = name))).isSome :=
      List.find?_isSome.mpr (List.any_eq_true.mp h)
    obtain ⟨v', hv'⟩ := Option.isSome_iff_exists.mp hs
    exact ⟨v'.id, by rw [hv']; rfl⟩
  · refine ⟨s.nextVersionId, ?_⟩
    have hnone : s.versions.find?
        (fun v => decide (v.library_id = libraryId ∧ v.name = name)) = none := by
      rw [List.find?_eq_none]
      intro x hx
      exact fun hx2 => h (List.any_eq_true.mpr ⟨x, hx, hx2⟩)
    show ((List.find? _ (s.versions ++ [_])).map _) = _
    have hsingle : List.find?
        (fun v : DbVersionRow => decide (v.library_id = libraryId ∧ v.name = name))
        [⟨s.nextVersionId, libraryId, name, "not_indexed"⟩] =
        some ⟨s.nextVersionId, libraryId, name, "not_indexed"⟩ := by simp
    rw [List.find?_append, hnone, Option.none_or, hsingle]
    rfl

/-- When the library and version rows already resolve, `resolveVersionId`
leaves the state unchanged and returns the resolved id. -/
theorem resolveVersionId_of_exists (s : StoreState) (library version : String)
    (libraryId versionId : Nat)
    (hl : getLibraryIdByName s (toLowerStr library) = some libraryId)
    (hv : getVersionIdByName s libraryId
      (denormalizeVersionName (toLowerStr version)) = some versionId) :
    resolveVersionId s library version = (s, versionId) := by
  have hlib : insertLibrary s (toLowerStr library) = s := by
    unfold getLibraryIdByName at hl
    unfold insertLibrary
    rw [if_pos]
    obtain ⟨l, hl1⟩ := Option.map_eq_some'.mp hl
    have hfound := List.find?_some hl1.1
    exact List.any_eq_true.mpr ⟨l, List.mem_of_find?_eq_some hl1.1, hfound⟩
  have hver : insertVersion s libraryId
      (denormalizeVersionName (toLowerStr version)) = s := by
    unfold getVersionIdByName at hv
    unfold insertVersion
    rw [if_pos]
    obtain ⟨v, hv1⟩ := Option.map_eq_some'.mp hv
    have hfound := List.find?_some hv1.1
    exact List.any_eq_true.mpr ⟨v, List.mem_of_find?_eq_some hv1.1, hfound⟩
  simp only [resolveVersionId]
  rw [hlib, hl]
  dsimp only
  rw [hver, hv]

/-- The state returned by `resolveVersionId` still resolves the same library
and version, with the returned id. -/
theorem resolveVersionId_resolves (s : StoreState) (library version : String) :
    ∃ libraryId,
      getLibraryIdByName (resolveVersionId s library version).1
        (toLowerStr library) = some libraryId ∧
      getVersionIdByName (resolveVersionId s library version).1 libraryId
        (denormalizeVersionName (toLowerStr version)) =
        some (resolveVersionId s library version).2 := by
  obtain ⟨lid, hlid⟩ := insertLibrary_find s (toLowerStr library)
  obtain ⟨vid, hvid⟩ := insertVersion_find (insertLibrary s (toLowerStr library))
    lid (denormalizeVersionName (toLowerStr version))
  have hlibs : (insertVersion (insertLibrary s (toLowerStr library)) lid
      (denormalizeVersionName (toLowerStr version))).libraries =
      (insertLibrary s (toLowerStr library)).libraries := by
    unfold insertVersion; split_ifs <;> rfl
  refine ⟨lid, ?_, ?_⟩ <;>
    simp only [resolveVersionId] <;> rw [hlid] <;> dsimp only <;>
    rw [hvid] <;> dsimp only
  · simpa [getLibraryIdByName, hlibs] using hlid
  · exact hvid

/-- `deleteDocumentsByPageId` removes exactly the page's document rows and
touches nothing else. -/
theorem deleteDocumentsByPageId_frame (s : StoreState) (pageId : Nat) :
    ((deleteDocumentsByPageId s pageId).1).pages = s.pages ∧
    ((deleteDocumentsByPageId s pageId).1).libraries = s.libraries ∧
    ((deleteDocumentsByPageId s pageId).1).versions = s.versions ∧
    ((deleteDocumentsByPageId s pageId).1).nextPageId = s.nextPageId ∧
    ((deleteDocumentsByPageId s pageId).1).documents =
      s.documents.filter (fun d => ¬ d.page_id = pageId) :=
  ⟨rfl, rfl, rfl, rfl, rfl⟩

/-- `insertPage` touches only the page table. -/
theorem insertPage_frame (s : StoreState) (versionId : Nat) (url title : String)
    (etag lastModified contentType : Option String) (depth : Nat) :
    (insertPage s versionId url title etag lastModified contentType depth).documents =
      s.documents ∧
    (insertPage s versionId url title etag lastModified contentType depth).libraries =
      s.libraries ∧
    (insertPage s versionId url title etag lastModified contentType depth).versions =
      s.versions ∧
    (insertPage s versionId url title etag lastModified contentType depth).nextDocumentId =
      s.nextDocumentId := by
  unfold insertPage
  split_ifs <;> simp

theorem find?_cons_pos' {α : Type} (p : α → Bool) (a : α) (l : List α)
    (h : p a = true) : List.find? p (a :: l) = some a := by
  rw [List.find?_cons, h]

theorem find?_cons_neg' {α : Type} (p : α → Bool) (a : α) (l : List α)
    (h : p a = false) : List.find? p (a :: l) = List.find? p l := by
  rw [List.find?_cons, h]

/-- The metadata update of the page upsert does not change which row the
`(version_id, url)` lookup finds, nor its id. -/
theorem find?_pages_update (versionId : Nat) (url title : String)
    (etag lastModified contentType : Option String) (depth : Nat)
    (l : List DbPageRow) :
    ((l.map (fun p => if p.version_id = versionId ∧ p.url = url then
        { p with title := title, content_type := contentType, etag := etag,
                 last_modified := lastModified, depth := depth } else p)).find?
      (fun p => decide (p.version_id = versionId ∧ p.url = url))).map
        (fun p => p.id) =
    (l.find? (fun p => decide (p.version_id = versionId ∧ p.url = url))).map
      (fun p => p.id) := by
  induction l with
  | nil => rfl
  | cons p rest ih =>
    by_cases hp : p.version_id = versionId ∧ p.url = url
    · simp only [List.map_cons, if_pos hp]
      rw [find?_cons_pos' (fun p : DbPageRow =>
          decide (p.version_id = versionId ∧ p.url = url))
          ⟨p.id, p.version_id, p.url, title, etag, lastModified, contentType, depth⟩ _
          (decide_eq_true ⟨hp.1, hp.2⟩),
        find?_cons_pos' (fun p : DbPageRow =>
          decide (p.version_id = versionId ∧ p.url = url)) p _
          (decide_eq_true hp)]
      rfl
    · simp only [List.map_cons, if_neg hp]
      rw [find?_cons_neg' (fun p : DbPageRow =>
          decide (p.version_id = versionId ∧ p.url = url)) _ _
          (decide_eq_false hp),
        find?_cons_neg' (fun p : DbPageRow =>
          decide (p.version_id = versionId ∧ p.url = url)) _ _
          (decide_eq_false hp)]
      exact ih

/-- Page lookup after the upsert: an existing page keeps its id, a missing
page is created with id `nextPageId`. -/
theorem insertPage_getPageId (s : StoreState) (versionId : Nat)
    (url title : String) (etag lastModified contentType : Option String)
    (depth : Nat) :
    (getPageId s versionId url = none →
      getPageId (insertPage s versionId url title etag lastModified contentType depth)
        versionId url = some s.nextPageId) ∧
    (∀ pid, getPageId s versionId url = some pid →
      getPageId (insertPage s versionId url title etag lastModified contentType depth)
        versionId url = some pid) := by
  constructor
  · intro h
    have hfind : s.pages.find?
        (fun p => decide (p.version_id = versionId ∧ p.url = url)) = none :=
      Option.map_eq_none'.mp h
    unfold insertPage
    rw [if_neg]
    · unfold getPageId
      show ((List.find? _ (s.pages ++ [_])).map _) = _
      have hsingle : List.find?
          (fun p : DbPageRow => decide (p.version_id = versionId ∧ p.url = url))
          [⟨s.nextPageId, versionId, url, title, etag, lastModified, contentType,
            depth⟩] =
          some ⟨s.nextPageId, versionId, url, title, etag, lastModified,
            contentType, depth⟩ := by simp
      rw [List.find?_append, hfind, Option.none_or, hsingle]
      rfl
    · intro hany
      have := List.find?_isSome.mpr (List.any_eq_true.mp hany)
      rw [hfind] at this
      exact absurd this (by simp)
  · intro pid h
    unfold getPageId at h
    have hisSome : (s.pages.find?
        (fun p => decide (p.version_id = versionId ∧ p.url = url))).isSome := by
      obtain ⟨x, hx⟩ := Option.map_eq_some'.mp h
      rw [hx.1]; rfl
    unfold insertPage
    rw [if_pos]
    · unfold getPageId
      dsimp only
      exact (find?_pages_update versionId url title etag lastModified
        contentType depth s.pages).trans h
    · obtain ⟨x, hx⟩ := Option.isSome_iff_exists.mp hisSome
      have hfound := List.find?_some hx
      exact List.any_eq_true.mpr ⟨x, List.mem_of_find?_eq_some hx, hfound⟩

/-- The chunk-insertion loop touches only the document table. -/
theorem insertChunksFrom_frame (s : StoreState) (pageId i : Nat)
    (chunks : List Chunk) :
    (insertChunksFrom s pageId i chunks).pages = s.pages ∧
    (insertChunksFrom s pageId i chunks).libraries = s.libraries ∧
    (insertChunksFrom s pageId i chunks).versions = s.versions := by
  induction chunks generalizing s i with
  | nil => exact ⟨rfl, rfl, rfl⟩
  | cons c rest ih =>
    exact ih (insertDocument s pageId c.content
      ⟨c.types, c.sect.level, c.sect.path⟩ i) (i + 1)

/-- The chunk-insertion loop appends the chunks' bodies with `sort_order`
counting up from `i`, after whatever the page already had. -/
theorem insertChunksFrom_pageChunks (s : StoreState) (pageId i : Nat)
    (chunks : List Chunk) :
    (pageChunks (insertChunksFrom s pageId i chunks) pageId).map
        (fun d => (d.content, d.sort_order)) =
      (pageChunks s pageId).map (fun d => (d.content, d.sort_order)) ++
        (List.enumFrom i chunks).map (fun p => (p.2.content, p.1)) := by
  induction chunks generalizing s i with
  | nil => simp [insertChunksFrom]
  | cons c rest ih =>
    rw [insertChunksFrom, ih]
    have hins : pageChunks (insertDocument s pageId c.content
        ⟨c.types, c.sect.level, c.sect.path⟩ i) pageId =
        pageChunks s pageId ++
          [⟨s.nextDocumentId, pageId, c.content,
            ⟨c.types, c.sect.level, c.sect.path⟩, i⟩] := by
      unfold insertDocument pageChunks
      dsimp only
      rw [List.filter_append]
      simp
    rw [hins]
    simp [List.enumFrom_cons]

/-- The committed state after the pre-transaction delete has no chunk rows
left for the ingested page (when the page does not exist it has none
either). -/
theorem addDocumentsPhase1_contents (s : StoreState) (library version : String)
    (result : ScrapeResult) :
    pageContentsForUrl (addDocumentsPhase1 s library version result).1
      (resolveVersionId s library version).2 result.url = [] := by
  obtain ⟨hP, hD, hN, _⟩ := resolveVersionId_frame s library version
  simp only [addDocumentsPhase1]
  cases hpg : getPageId (resolveVersionId s library version).1
      (resolveVersionId s library version).2 result.url with
  | none =>
    show pageContentsForUrl (resolveVersionId s library version).1
      (resolveVersionId s library version).2 result.url = []
    unfold pageContentsForUrl
    rw [hpg]
  | some pageId =>
    show pageContentsForUrl
      (deleteDocumentsByPageId (resolveVersionId s library version).1 pageId).1
      (resolveVersionId s library version).2 result.url = []
    unfold pageContentsForUrl
    have hpages : ((deleteDocumentsByPageId (resolveVersionId s library version).1
        pageId).1).pages = (resolveVersionId s library version).1.pages :=
      (deleteDocumentsByPageId_frame _ _).1
    have hpg2 : getPageId (deleteDocumentsByPageId
        (resolveVersionId s library version).1 pageId).1
        (resolveVersionId s library version).2 result.url = some pageId := by
      unfold getPageId at hpg ⊢
      rw [hpages]
      exact hpg
    rw [hpg2]
    have hdocs : ((deleteDocumentsByPageId (resolveVersionId s library version).1
        pageId).1).documents = (resolveVersionId s library version).1.documents.filter
        (fun d => ¬ d.page_id = pageId) :=
      (deleteDocumentsByPageId_frame _ _).2.2.2.2
    unfold pageChunks
    rw [hdocs]
    dsimp only
    rw [List.filter_filter]
    have : ((resolveVersionId s library version).1.documents.filter
        (fun d => decide (d.page_id = pageId) && decide (¬ d.page_id = pageId))) = [] := by
      rw [List.filter_eq_nil_iff]
      intro d hd
      simp
    rw [this]
    rfl

/-- Inserting a page's chunks inside the transaction: when the page row
resolves (existing id, or the fresh id for a new page) and carries no chunk
rows, the transaction leaves it holding exactly the input chunks with
`sort_order = 0..n-1` in input order. -/
theorem addDocumentsTxn_pageChunks (s2 : StoreState) (versionId depth : Nat)
    (result : ScrapeResult)
    (hexisting : ∀ pid, getPageId s2 versionId result.url = some pid →
      pageChunks s2 pid = [])
    (hnew : getPageId s2 versionId result.url = none →
      pageChunks s2 s2.nextPageId = []) :
    ∃ pid,
      getPageId (addDocumentsTxn s2 versionId depth result) versionId result.url =
        some pid ∧
      (∀ pid0, getPageId s2 versionId result.url = some pid0 → pid = pid0) ∧
      (pageChunks (addDocumentsTxn s2 versionId depth result) pid).map
          (fun d => (d.content, d.sort_order)) =
        (List.enumFrom 0 result.chunks).map (fun p => (p.2.content, p.1)) := by
  simp only [addDocumentsTxn]
  cases hpg : getPageId s2 versionId result.url with
  | some pid =>
    have hup := (insertPage_getPageId s2 versionId result.url result.title
      result.etag result.lastModified result.contentType depth).2 pid hpg
    rw [hup]
    refine ⟨pid, ?_, ?_, ?_⟩
    · unfold getPageId
      rw [(insertChunksFrom_frame _ _ _ _).1]
      exact hup
    · intro pid0 h0
      exact Option.some.inj h0
    · rw [insertChunksFrom_pageChunks]
      have hempty : pageChunks (insertPage s2 versionId result.url result.title
          result.etag result.lastModified result.contentType depth) pid =
          pageChunks s2 pid := by
        unfold pageChunks
        rw [(insertPage_frame s2 versionId result.url result.title result.etag
          result.lastModified result.contentType depth).1]
      rw [hempty, hexisting pid hpg]
      rfl
  | none =>
    have hup := (insertPage_getPageId s2 versionId result.url result.title
      result.etag result.lastModified result.contentType depth).1 hpg
    rw [hup]
    refine ⟨s2.nextPageId, ?_, ?_, ?_⟩
    · unfold getPageId
      rw [(insertChunksFrom_frame _ _ _ _).1]
      exact hup
    · intro pid0 h0
      exact Option.noConfusion h0
    · rw [insertChunksFrom_pageChunks]
      have hempty : pageChunks (insertPage s2 versionId result.url result.title
          result.etag result.lastModified result.contentType depth) s2.nextPageId =
          pageChunks s2 s2.nextPageId := by
        unfold pageChunks
        rw [(insertPage_frame s2 versionId result.url result.title result.etag
          result.lastModified result.contentType depth).1]
      rw [hempty, hnew hpg]
      rfl

/-- The version id returned by the pre-transaction phase is the resolved
version id. -/
theorem addDocumentsPhase1_snd (s : StoreState) (library version : String)
    (result : ScrapeResult) :
    (addDocumentsPhase1 s library version result).2 =
      (resolveVersionId s library version).2 := by
  simp only [addDocumentsPhase1]
  cases getPageId (resolveVersionId s library version).1
    (resolveVersionId s library version).2 result.url <;> rfl

/-- The pre-transaction phase leaves the page table unchanged. -/
theorem addDocumentsPhase1_pages (s : StoreState) (library version : String)
    (result : ScrapeResult) :
    (addDocumentsPhase1 s library version result).1.pages = s.pages := by
  simp only [addDocumentsPhase1]
  cases getPageId (resolveVersionId s library version).1
      (resolveVersionId s library version).2 result.url with
  | none => exact (resolveVersionId_frame s library version).1
  | some pid =>
    exact ((deleteDocumentsByPageId_frame _ _).1).trans
      (resolveVersionId_frame s library version).1

/-- The pre-transaction phase only removes document rows. -/
theorem addDocumentsPhase1_documents_mem (s : StoreState)
    (library version : String) (result : ScrapeResult) :
    ∀ d ∈ (addDocumentsPhase1 s library version result).1.documents,
      d ∈ s.documents := by
  intro d hd
  revert hd
  simp only [addDocumentsPhase1]
  cases getPageId (resolveVersionId s library version).1
      (resolveVersionId s library version).2 result.url with
  | none =>
    intro hd
    rwa [(resolveVersionId_frame s library version).2.1] at hd
  | some pid =>
    intro hd
    rw [(deleteDocumentsByPageId_frame _ _).2.2.2.2] at hd
    have := List.mem_of_mem_filter hd
    rwa [(resolveVersionId_frame s library version).2.1] at this

/-- The pre-transaction phase does not advance the page rowid counter. -/
theorem addDocumentsPhase1_nextPageId (s : StoreState)
    (library version : String) (result : ScrapeResult) :
    (addDocumentsPhase1 s library version result).1.nextPageId = s.nextPageId := by
  simp only [addDocumentsPhase1]
  cases getPageId (resolveVersionId s library version).1
      (resolveVersionId s library version).2 result.url with
  | none => exact (resolveVersionId_frame s library version).2.2.1
  | some pid =>
    exact ((deleteDocumentsByPageId_frame _ _).2.2.2.1).trans
      (resolveVersionId_frame s library version).2.2.1

/-- The pre-transaction phase leaves the library and version tables as the
version resolution left them. -/
theorem addDocumentsPhase1_tables (s : StoreState) (library version : String)
    (result : ScrapeResult) :
    (addDocumentsPhase1 s library version result).1.libraries =
      (resolveVersionId s library version).1.libraries ∧
    (addDocumentsPhase1 s library version result).1.versions =
      (resolveVersionId s library version).1.versions := by
  simp only [addDocumentsPhase1]
  cases getPageId (resolveVersionId s library version).1
      (resolveVersionId s library version).2 result.url with
  | none => exact ⟨rfl, rfl⟩
  | some pid =>
    exact ⟨(deleteDocumentsByPageId_frame _ _).2.1,
      (deleteDocumentsByPageId_frame _ _).2.2.1⟩

/-- The insert transaction leaves the library and version tables alone. -/
theorem addDocumentsTxn_tables (s2 : StoreState) (versionId depth : Nat)
    (result : ScrapeResult) :
    (addDocumentsTxn s2 versionId depth result).libraries = s2.libraries ∧
    (addDocumentsTxn s2 versionId depth result).versions = s2.versions := by
  simp only [addDocumentsTxn]
  cases getPageId (insertPage s2 versionId result.url result.title result.etag
      result.lastModified result.contentType depth) versionId result.url with
  | none => exact ⟨rfl, rfl⟩
  | some pid =>
    refine ⟨?_, ?_⟩
    · exact ((insertChunksFrom_frame _ _ _ _).2.1).trans
        (insertPage_frame s2 versionId result.url result.title result.etag
          result.lastModified result.contentType depth).2.1
    · exact ((insertChunksFrom_frame _ _ _ _).2.2).trans
        (insertPage_frame s2 versionId result.url result.title result.etag
          result.lastModified result.contentType depth).2.2.1

/-- Library lookup depends only on the library table. -/
theorem getLibraryIdByName_congr (s t : StoreState) (name : String)
    (h : s.libraries = t.libraries) :
    getLibraryIdByName s name = getLibraryIdByName t name := by
  unfold getLibraryIdByName
  rw [h]

/-- Version lookup depends only on the version table. -/
theorem getVersionIdByName_congr (s t : StoreState) (libraryId : Nat)
    (name : Option String) (h : s.versions = t.versions) :
    getVersionIdByName s libraryId name = getVersionIdByName t libraryId name := by
  unfold getVersionIdByName
  rw [h]

theorem map_fst_of_pair_map {α β γ : Type} (f : α → β) (g : α → γ)
    (l : List α) :
    (l.map (fun a => (f a, g a))).map Prod.fst = l.map f := by
  induction l with
  | nil => rfl
  | cons a t ih => simp [ih]

theorem map_snd_of_pair_map {α β γ : Type} (f : α → β) (g : α → γ)
    (l : List α) :
    (l.map (fun a => (f a, g a))).map Prod.snd = l.map g := by
  induction l with
  | nil => rfl
  | cons a t ih => simp [ih]

theorem enumFrom_map_snd_comp {α β : Type} (f : α → β) :
    ∀ (n : Nat) (l : List α),
      (List.enumFrom n l).map (fun p => f p.2) = l.map f := by
  intro n l
  induction l generalizing n with
  | nil => rfl
  | cons a t ih => simp only [List.enumFrom_cons, List.map_cons, ih]

theorem enumFrom_map_fst {α : Type} :
    ∀ (n : Nat) (l : List α),
      (List.enumFrom n l).map (fun p => p.1) = List.range' n l.length := by
  intro n l
  induction l generalizing n with
  | nil => rfl
  | cons a t ih =>
    simp only [List.enumFrom_cons, List.map_cons, List.length_cons,
      List.range'_succ, ih]

/-- A non-empty ingest via `addDocuments` ends with the page row resolvable
and holding exactly the input chunks, `sort_order = 0..n-1` in input order;
an existing page keeps its id. -/
theorem addDocuments_pageChunks (s : StoreState) (vectorSearchEnabled : Bool)
    (embeddingBatchChars embeddingBatchSize : Nat) (library version : String)
    (depth : Nat) (result : ScrapeResult) (hc : ¬ result.chunks = [])
    (hfresh : getPageId s (resolveVersionId s library version).2 result.url =
        none → pageChunks s s.nextPageId = []) :
    ∃ pid,
      getPageId (addDocuments s vectorSearchEnabled embeddingBatchChars
          embeddingBatchSize library version depth result).1
        (resolveVersionId s library version).2 result.url = some pid ∧
      (∀ pid0, getPageId s (resolveVersionId s library version).2 result.url =
          some pid0 → pid = pid0) ∧
      (pageChunks (addDocuments s vectorSearchEnabled embeddingBatchChars
          embeddingBatchSize library version depth result).1 pid).map
          (fun d => (d.content, d.sort_order)) =
        (List.enumFrom 0 result.chunks).map (fun p => (p.2.content, p.1)) := by
  have hpgeq : getPageId (addDocumentsPhase1 s library version result).1
      (resolveVersionId s library version).2 result.url =
      getPageId s (resolveVersionId s library version).2 result.url := by
    unfold getPageId
    rw [addDocumentsPhase1_pages]
  have hexisting : ∀ pid, getPageId (addDocumentsPhase1 s library version result).1
      (resolveVersionId s library version).2 result.url = some pid →
      pageChunks (addDocumentsPhase1 s library version result).1 pid = [] := by
    intro pid hpid
    have h0 := addDocumentsPhase1_contents s library version result
    unfold pageContentsForUrl at h0
    rw [hpid] at h0
    dsimp only at h0
    exact List.map_eq_nil.mp h0
  have hnew : getPageId (addDocumentsPhase1 s library version result).1
      (resolveVersionId s library version).2 result.url = none →
      pageChunks (addDocumentsPhase1 s library version result).1
        ((addDocumentsPhase1 s library version result).1).nextPageId = [] := by
    intro hnone
    have hcs := hfresh (hpgeq ▸ hnone)
    unfold pageChunks at hcs ⊢
    rw [addDocumentsPhase1_nextPageId]
    rw [List.filter_eq_nil_iff] at hcs ⊢
    intro d hd
    exact hcs d (addDocumentsPhase1_documents_mem s library version result d hd)
  obtain ⟨pid, h1, h2, h3⟩ := addDocumentsTxn_pageChunks
    (addDocumentsPhase1 s library version result).1
    (addDocumentsPhase1 s library version result).2 depth result
    (by rw [addDocumentsPhase1_snd]; exact hexisting)
    (by rw [addDocumentsPhase1_snd]; exact hnew)
  rw [addDocumentsPhase1_snd] at h1 h2 h3
  refine ⟨pid, ?_, ?_, ?_⟩
  · simp only [addDocuments, if_neg hc]
    rw [addDocumentsPhase1_snd]
    exact h1
  · intro pid0 h0
    exact h2 pid0 (by rw [hpgeq]; exact h0)
  · simp only [addDocuments, if_neg hc]
    rw [addDocumentsPhase1_snd]
    exact h3

/-- C1 (amended): re-ingesting a URL via `addDocuments` is not atomic: the
old chunk rows are deleted by a statement that commits before the insert
transaction begins, so the committed state right after the delete is
observable with the page referencing neither chunk set (it is empty); after
the call the page references exactly the new chunk set, in order. -/
theorem addDocuments_replacement_with_gap (s : StoreState)
    (vectorSearchEnabled : Bool) (embeddingBatchChars embeddingBatchSize : Nat)
    (library version : String) (depth : Nat) (result : ScrapeResult)
    (hc : ¬ result.chunks = [])
    (hfresh : getPageId s (resolveVersionId s library version).2 result.url =
        none → pageChunks s s.nextPageId = []) :
    (addDocumentsPhase1 s library version result).1 ∈
      addDocumentsObservableStates s library version depth result ∧
    pageContentsForUrl (addDocumentsPhase1 s library version result).1
      (resolveVersionId s library version).2 result.url = [] ∧
    pageContentsForUrl (addDocuments s vectorSearchEnabled embeddingBatchChars
        embeddingBatchSize library version depth result).1
      (resolveVersionId s library version).2 result.url =
      result.chunks.map (fun c => c.content) := by
  refine ⟨?_, addDocumentsPhase1_contents s library version result, ?_⟩
  · simp [addDocumentsObservableStates, hc]
  · obtain ⟨pid, hpid, _, hproj⟩ := addDocuments_pageChunks s vectorSearchEnabled
      embeddingBatchChars embeddingBatchSize library version depth result hc hfresh
    have hmap := congrArg (List.map Prod.fst) hproj
    rw [map_fst_of_pair_map, map_fst_of_pair_map, enumFrom_map_snd_comp] at hmap
    unfold pageContentsForUrl
    rw [hpid]
    exact hmap

/-- Witness for the amended C1 theorem on a one-page store holding chunk
`"old"`, re-ingested with chunk `"new"`. -/
theorem addDocuments_replacement_with_gap_witness :
    (¬ (⟨"u", "t", none, none, none, [⟨["text"], "new", ⟨3, []⟩⟩]⟩ :
        ScrapeResult).chunks = []) ∧
    ((addDocumentsPhase1
        ⟨[⟨1, "lib"⟩], [⟨1, 1, some "1.0", "completed"⟩],
         [⟨1, 1, "u", "t", none, none, none, 0⟩],
         [⟨1, 1, "old", ⟨["text"], 3, []⟩, 0⟩], 2, 2, 2, 2⟩
        "lib" "1.0"
        ⟨"u", "t", none, none, none, [⟨["text"], "new", ⟨3, []⟩⟩]⟩).1 ∈
      addDocumentsObservableStates
        ⟨[⟨1, "lib"⟩], [⟨1, 1, some "1.0", "completed"⟩],
         [⟨1, 1, "u", "t", none, none, none, 0⟩],
         [⟨1, 1, "old", ⟨["text"], 3, []⟩, 0⟩], 2, 2, 2, 2⟩
        "lib" "1.0" 0
        ⟨"u", "t", none, none, none, [⟨["text"], "new", ⟨3, []⟩⟩]⟩ ∧
    pageContentsForUrl (addDocumentsPhase1
        ⟨[⟨1, "lib"⟩], [⟨1, 1, some "1.0", "completed"⟩],
         [⟨1, 1, "u", "t", none, none, none, 0⟩],
         [⟨1, 1, "old", ⟨["text"], 3, []⟩, 0⟩], 2, 2, 2, 2⟩
        "lib" "1.0"
        ⟨"u", "t", none, none, none, [⟨["text"], "new", ⟨3, []⟩⟩]⟩).1
      (resolveVersionId
        ⟨[⟨1, "lib"⟩], [⟨1, 1, some "1.0", "completed"⟩],
         [⟨1, 1, "u", "t", none, none, none, 0⟩],
         [⟨1, 1, "old", ⟨["text"], 3, []⟩, 0⟩], 2, 2, 2, 2⟩
        "lib" "1.0").2 "u" = [] ∧
    pageContentsForUrl (addDocuments
        ⟨[⟨1, "lib"⟩], [⟨1, 1, some "1.0", "completed"⟩],
         [⟨1, 1, "u", "t", none, none, none, 0⟩],
         [⟨1, 1, "old", ⟨["text"], 3, []⟩, 0⟩], 2, 2, 2, 2⟩
        true 100 10 "lib" "1.0" 0
        ⟨"u", "t", none, none, none, [⟨["text"], "new", ⟨3, []⟩⟩]⟩).1
      (resolveVersionId
        ⟨[⟨1, "lib"⟩], [⟨1, 1, some "1.0", "completed"⟩],
         [⟨1, 1, "u", "t", none, none, none, 0⟩],
         [⟨1, 1, "old", ⟨["text"], 3, []⟩, 0⟩], 2, 2, 2, 2⟩
        "lib" "1.0").2 "u" =
      ([⟨["text"], "new", ⟨3, []⟩⟩] : List Chunk).map (fun c => c.content)) :=
  ⟨by decide,
   addDocuments_replacement_with_gap
     ⟨[⟨1, "lib"⟩], [⟨1, 1, some "1.0", "completed"⟩],
      [⟨1, 1, "u", "t", none, none, none, 0⟩],
      [⟨1, 1, "old", ⟨["text"], 3, []⟩, 0⟩], 2, 2, 2, 2⟩
     true 100 10 "lib" "1.0" 0
     ⟨"u", "t", none, none, none, [⟨["text"], "new", ⟨3, []⟩⟩]⟩
     (by decide) (by decide)⟩

/-- C7: a non-empty ingest stores the page's chunks with `sort_order`
exactly `0..n-1` — no gaps, no duplicates — assigned in chunk input order,
and re-ingesting the identical chunk sequence for the same library, version
and URL yields the same page id and the same `sort_order` assignment. -/
theorem addDocuments_sort_order_stable (s : StoreState) (vec1 vec2 : Bool)
    (bc1 bs1 bc2 bs2 : Nat) (library version : String) (d1 d2 : Nat)
    (result : ScrapeResult) (hc : ¬ result.chunks = [])
    (hfresh : getPageId s (resolveVersionId s library version).2 result.url =
        none → pageChunks s s.nextPageId = []) :
    ∃ pid,
      getPageId (addDocuments s vec1 bc1 bs1 library version d1 result).1
        (resolveVersionId s library version).2 result.url = some pid ∧
      (pageChunks (addDocuments s vec1 bc1 bs1 library version d1 result).1
          pid).map (fun d => (d.content, d.sort_order)) =
        (List.enumFrom 0 result.chunks).map (fun p => (p.2.content, p.1)) ∧
      (pageChunks (addDocuments s vec1 bc1 bs1 library version d1 result).1
          pid).map (fun d => d.sort_order) = List.range result.chunks.length ∧
      ((pageChunks (addDocuments s vec1 bc1 bs1 library version d1 result).1
          pid).map (fun d => d.sort_order)).Nodup ∧
      getPageId (addDocuments
          (addDocuments s vec1 bc1 bs1 library version d1 result).1
          vec2 bc2 bs2 library version d2 result).1
        (resolveVersionId s library version).2 result.url = some pid ∧
      (pageChunks (addDocuments
          (addDocuments s vec1 bc1 bs1 library version d1 result).1
          vec2 bc2 bs2 library version d2 result).1 pid).map
          (fun d => (d.content, d.sort_order)) =
        (List.enumFrom 0 result.chunks).map (fun p => (p.2.content, p.1)) := by
  obtain ⟨pid, hpid1, _, hproj1⟩ := addDocuments_pageChunks s vec1 bc1 bs1
    library version d1 result hc hfresh
  obtain ⟨lid, hl, hv⟩ := resolveVersionId_resolves s library version
  have hlibs : (addDocuments s vec1 bc1 bs1 library version d1 result).1.libraries =
      (resolveVersionId s library version).1.libraries := by
    simp only [addDocuments, if_neg hc]
    exact (addDocumentsTxn_tables _ _ _ _).1.trans
      (addDocumentsPhase1_tables s library version result).1
  have hvers : (addDocuments s vec1 bc1 bs1 library version d1 result).1.versions =
      (resolveVersionId s library version).1.versions := by
    simp only [addDocuments, if_neg hc]
    exact (addDocumentsTxn_tables _ _ _ _).2.trans
      (addDocumentsPhase1_tables s library version result).2
  have hres2 : resolveVersionId
      (addDocuments s vec1 bc1 bs1 library version d1 result).1 library version =
      ((addDocuments s vec1 bc1 bs1 library version d1 result).1,
       (resolveVersionId s library version).2) :=
    resolveVersionId_of_exists _ library version lid
      (resolveVersionId s library version).2
      (by rw [getLibraryIdByName_congr _ (resolveVersionId s library version).1
          (toLowerStr library) hlibs]; exact hl)
      (by rw [getVersionIdByName_congr _ (resolveVersionId s library version).1
          lid (denormalizeVersionName (toLowerStr version)) hvers]; exact hv)
  have hfresh2 : getPageId (addDocuments s vec1 bc1 bs1 library version d1 result).1
      (resolveVersionId
        (addDocuments s vec1 bc1 bs1 library version d1 result).1 library
        version).2 result.url = none →
      pageChunks (addDocuments s vec1 bc1 bs1 library version d1 result).1
        ((addDocuments s vec1 bc1 bs1 library version d1 result).1).nextPageId =
        [] := by
    rw [hres2]
    intro hn
    exact Option.noConfusion (hpid1.symm.trans hn)
  obtain ⟨pid2, hpid2, huniq2, hproj2⟩ := addDocuments_pageChunks
    (addDocuments s vec1 bc1 bs1 library version d1 result).1 vec2 bc2 bs2
    library version d2 result hc hfresh2
  rw [hres2] at hpid2 huniq2
  have hpe : pid2 = pid := huniq2 pid hpid1
  rw [hpe] at hpid2 hproj2
  have hsort := congrArg (List.map Prod.snd) hproj1
  rw [map_snd_of_pair_map, map_snd_of_pair_map, enumFrom_map_fst,
    ← List.range_eq_range'] at hsort
  refine ⟨pid, hpid1, hproj1, hsort, ?_, hpid2, hproj2⟩
  rw [hsort]
  exact List.nodup_range _

/-- Witness for the C7 theorem: ingesting two chunks `"a"`, `"b"` into an
empty store, twice. -/
theorem addDocuments_sort_order_stable_witness :
    (¬ (⟨"u", "t", none, none, none,
        [⟨["text"], "a", ⟨3, []⟩⟩, ⟨["text"], "b", ⟨3, []⟩⟩]⟩ :
        ScrapeResult).chunks = []) ∧
    (∃ pid,
      getPageId (addDocuments ⟨[], [], [], [], 1, 1, 1, 1⟩ true 100 10
          "lib" "1.0" 0
          ⟨"u", "t", none, none, none,
           [⟨["text"], "a", ⟨3, []⟩⟩, ⟨["text"], "b", ⟨3, []⟩⟩]⟩).1
        (resolveVersionId ⟨[], [], [], [], 1, 1, 1, 1⟩ "lib" "1.0").2 "u" =
        some pid ∧
      (pageChunks (addDocuments ⟨[], [], [], [], 1, 1, 1, 1⟩ true 100 10
          "lib" "1.0" 0
          ⟨"u", "t", none, none, none,
           [⟨["text"], "a", ⟨3, []⟩⟩, ⟨["text"], "b", ⟨3, []⟩⟩]⟩).1
          pid).map (fun d => (d.content, d.sort_order)) =
        (List.enumFrom 0
          ([⟨["text"], "a", ⟨3, []⟩⟩, ⟨["text"], "b", ⟨3, []⟩⟩] :
            List Chunk)).map (fun p => (p.2.content, p.1)) ∧
      (pageChunks (addDocuments ⟨[], [], [], [], 1, 1, 1, 1⟩ true 100 10
          "lib" "1.0" 0
          ⟨"u", "t", none, none, none,
           [⟨["text"], "a", ⟨3, []⟩⟩, ⟨["text"], "b", ⟨3, []⟩⟩]⟩).1
          pid).map (fun d => d.sort_order) =
        List.range ([⟨["text"], "a", ⟨3, []⟩⟩, ⟨["text"], "b", ⟨3, []⟩⟩] :
          List Chunk).length ∧
      ((pageChunks (addDocuments ⟨[], [], [], [], 1, 1, 1, 1⟩ true 100 10
          "lib" "1.0" 0
          ⟨"u", "t", none, none, none,
           [⟨["text"], "a", ⟨3, []⟩⟩, ⟨["text"], "b", ⟨3, []⟩⟩]⟩).1
          pid).map (fun d => d.sort_order)).Nodup ∧
      getPageId (addDocuments
          (addDocuments ⟨[], [], [], [], 1, 1, 1, 1⟩ true 100 10
            "lib" "1.0" 0
            ⟨"u", "t", none, none, none,
             [⟨["text"], "a", ⟨3, []⟩⟩, ⟨["text"], "b", ⟨3, []⟩⟩]⟩).1
          false 100 10 "lib" "1.0" 0
          ⟨"u", "t", none, none, none,
           [⟨["text"], "a", ⟨3, []⟩⟩, ⟨["text"], "b", ⟨3, []⟩⟩]⟩).1
        (resolveVersionId ⟨[], [], [], [], 1, 1, 1, 1⟩ "lib" "1.0").2 "u" =
        some pid ∧
      (pageChunks (addDocuments
          (addDocuments ⟨[], [], [], [], 1, 1, 1, 1⟩ true 100 10
            "lib" "1.0" 0
            ⟨"u", "t", none, none, none,
             [⟨["text"], "a", ⟨3, []⟩⟩, ⟨["text"], "b", ⟨3, []⟩⟩]⟩).1
          false 100 10 "lib" "1.0" 0
          ⟨"u", "t", none, none, none,
           [⟨["text"], "a", ⟨3, []⟩⟩, ⟨["text"], "b", ⟨3, []⟩⟩]⟩).1 pid).map
          (fun d => (d.content, d.sort_order)) =
        (List.enumFrom 0
          ([⟨["text"], "a", ⟨3, []⟩⟩, ⟨["text"], "b", ⟨3, []⟩⟩] :
            List Chunk)).map (fun p => (p.2.content, p.1))) :=
  ⟨by decide,
   addDocuments_sort_order_stable ⟨[], [], [], [], 1, 1, 1, 1⟩ true false
     100 10 100 10 "lib" "1.0" 0 0
     ⟨"u", "t", none, none, none,
      [⟨["text"], "a", ⟨3, []⟩⟩, ⟨["text"], "b", ⟨3, []⟩⟩]⟩
     (by decide) (by decide)⟩

/-- The version join is monotone in the library table. -/
theorem versionMatches_mono (s t : StoreState) (lib ver : String)
    (v : DbVersionRow) (hl : ∀ l ∈ t.libraries, l ∈ s.libraries) :
    versionMatches t lib ver v = true → versionMatches s lib ver v = true := by
  unfold versionMatches
  simp only [Bool.and_eq_true, List.any_eq_true, decide_eq_true_eq]
  rintro ⟨⟨l, hl1, hl2⟩, hname⟩
  exact ⟨⟨l, hl l hl1, hl2⟩, hname⟩

/-- The page join is monotone in the version and library tables. -/
theorem pageMatches_mono (s t : StoreState) (lib ver : String) (p : DbPageRow)
    (hv : ∀ v ∈ t.versions, v ∈ s.versions)
    (hl : ∀ l ∈ t.libraries, l ∈ s.libraries) :
    pageMatches t lib ver p = true → pageMatches s lib ver p = true := by
  unfold pageMatches
  simp only [List.any_eq_true, decide_eq_true_eq]
  rintro ⟨v, hv1, hv2, hv3⟩
  exact ⟨v, hv v hv1, hv2, versionMatches_mono s t lib ver v hl hv3⟩

/-- After the page-deletion filter ran at a state `u`, any later state whose
pages are exactly the filtered rows and whose version/library tables only
shrank has no document joined to the library/version pair. -/
theorem checkDocumentExists_false_after (u t : StoreState)
    (library version : String)
    (hpages : t.pages = u.pages.filter
      (fun p => ¬ pageMatches u (toLowerStr library) (toLowerStr version) p))
    (hvsub : ∀ v ∈ t.versions, v ∈ u.versions)
    (hlsub : ∀ l ∈ t.libraries, l ∈ u.libraries) :
    checkDocumentExists t library version = false := by
  simp only [checkDocumentExists, List.any_eq_false]
  intro d hd hpany
  rw [List.any_eq_true] at hpany
  obtain ⟨p, hp, hpd⟩ := hpany
  rw [decide_eq_true_eq] at hpd
  obtain ⟨hdp, hm⟩ := hpd
  have hpf := List.mem_filter.mp (hpages ▸ hp)
  rw [decide_eq_true_eq] at hpf
  exact hpf.2 (pageMatches_mono u t (toLowerStr library) (toLowerStr version) p
    hvsub hlsub hm)

/-- C8: when the `(library, version)` pair resolves, `removeVersion` deletes
documents, then pages, then the version row: the returned triple carries the
document changed-row count and `versionDeleted = true`; a subsequent
`checkDocumentExists` on the returned state is `false`; and the library row
is deleted iff `removeLibraryIfEmpty` was requested and no versions of that
library remain in the returned state. -/
theorem removeVersion_cascade (s : StoreState) (library version : String)
    (removeLibraryIfEmpty : Bool) (versionId libraryId : Nat)
    (hv : getVersionIdStmt s (toLowerStr library) (toLowerStr version) =
      some (versionId, libraryId)) :
    (removeVersion s library version removeLibraryIfEmpty).2.documentsDeleted =
      (deleteDocumentsStmt s (toLowerStr library) (toLowerStr version)).2 ∧
    (removeVersion s library version removeLibraryIfEmpty).2.versionDeleted =
      true ∧
    ((removeVersion s library version removeLibraryIfEmpty).2.libraryDeleted =
        true ↔
      removeLibraryIfEmpty = true ∧
        countVersionsByLibraryId
          (removeVersion s library version removeLibraryIfEmpty).1 libraryId =
          0) ∧
    checkDocumentExists (removeVersion s library version removeLibraryIfEmpty).1
      library version = false := by
  obtain ⟨v0, hfind, hpair⟩ := Option.map_eq_some'.mp hv
  obtain ⟨hvid, hlid⟩ := Prod.mk.inj hpair
  have hvmem : v0 ∈ s.versions := List.mem_of_find?_eq_some hfind
  have hvmatch : versionMatches s (toLowerStr library) (toLowerStr version) v0 =
      true := List.find?_some hfind
  obtain ⟨l0, hl0mem, hl0id⟩ : ∃ l ∈ s.libraries, l.id = libraryId := by
    unfold versionMatches at hvmatch
    rw [Bool.and_eq_true] at hvmatch
    obtain ⟨l0, hl0, hl0p⟩ := List.any_eq_true.mp hvmatch.1
    rw [decide_eq_true_eq] at hl0p
    exact ⟨l0, hl0, hl0p.1.symm.trans hlid⟩
  simp only [removeVersion]
  rw [hv]
  dsimp only
  have hversionDeleted : decide (0 < (deleteVersionById
      (deletePagesStmt (deletePages s library version).1 (toLowerStr library)
        (toLowerStr version)) versionId).2) = true := by
    rw [decide_eq_true_eq]
    have hmem : v0 ∈ (deletePagesStmt (deletePages s library version).1
        (toLowerStr library) (toLowerStr version)).versions.filter
        (fun v => decide (v.id = versionId)) :=
      List.mem_filter.mpr ⟨hvmem, decide_eq_true hvid⟩
    exact List.length_pos_of_mem hmem
  rw [hversionDeleted]
  by_cases hreq : removeLibraryIfEmpty = true
  · rw [if_pos ⟨hreq, rfl⟩]
    by_cases hcount : countVersionsByLibraryId (deleteVersionById
        (deletePagesStmt (deletePages s library version).1 (toLowerStr library)
          (toLowerStr version)) versionId).1 libraryId = 0
    · rw [if_pos hcount]
      refine ⟨rfl, rfl, ?_, ?_⟩
      · have hldel : decide (0 < (deleteLibraryById (deleteVersionById
            (deletePagesStmt (deletePages s library version).1
              (toLowerStr library) (toLowerStr version)) versionId).1
            libraryId).2) = true := by
          rw [decide_eq_true_eq]
          have hmem : l0 ∈ (deleteVersionById (deletePagesStmt
              (deletePages s library version).1 (toLowerStr library)
              (toLowerStr version)) versionId).1.libraries.filter
              (fun l => decide (l.id = libraryId)) :=
            List.mem_filter.mpr ⟨hl0mem, decide_eq_true hl0id⟩
          exact List.length_pos_of_mem hmem
        exact iff_of_true hldel ⟨hreq, hcount⟩
      · refine checkDocumentExists_false_after
          (deletePages s library version).1 _ library version rfl ?_ ?_
        · intro v hvv
          exact (List.mem_filter.mp hvv).1
        · intro l hll
          exact (List.mem_filter.mp hll).1
    · rw [if_neg hcount]
      refine ⟨rfl, rfl, ?_, ?_⟩
      · exact iff_of_false (by simp) (fun h => hcount h.2)
      · refine checkDocumentExists_false_after
          (deletePages s library version).1 _ library version rfl ?_ ?_
        · intro v hvv
          exact (List.mem_filter.mp hvv).1
        · intro l hll
          exact hll
  · rw [if_neg (fun h => hreq h.1)]
    refine ⟨rfl, rfl, ?_, ?_⟩
    · exact iff_of_false (by simp) (fun h => hreq h.1)
    · refine checkDocumentExists_false_after
        (deletePages s library version).1 _ library version rfl ?_ ?_
      · intro v hvv
        exact (List.mem_filter.mp hvv).1
      · intro l hll
        exact hll

/-- Witness for the C8 theorem: removing version `1.0` of `lib`, with
`removeLibraryIfEmpty` requested, from a one-page one-document store. -/
theorem removeVersion_cascade_witness :
    getVersionIdStmt
      ⟨[⟨1, "lib"⟩], [⟨1, 1, some "1.0", "completed"⟩],
       [⟨1, 1, "u", "t", none, none, none, 0⟩],
       [⟨1, 1, "body", ⟨["text"], 3, []⟩, 0⟩], 2, 2, 2, 2⟩
      (toLowerStr "lib") (toLowerStr "1.0") = some (1, 1) ∧
    ((removeVersion
        ⟨[⟨1, "lib"⟩], [⟨1, 1, some "1.0", "completed"⟩],
         [⟨1, 1, "u", "t", none, none, none, 0⟩],
         [⟨1, 1, "body", ⟨["text"], 3, []⟩, 0⟩], 2, 2, 2, 2⟩
        "lib" "1.0" true).2.documentsDeleted =
      (deleteDocumentsStmt
        ⟨[⟨1, "lib"⟩], [⟨1, 1, some "1.0", "completed"⟩],
         [⟨1, 1, "u", "t", none, none, none, 0⟩],
         [⟨1, 1, "body", ⟨["text"], 3, []⟩, 0⟩], 2, 2, 2, 2⟩
        (toLowerStr "lib") (toLowerStr "1.0")).2 ∧
    (removeVersion
        ⟨[⟨1, "lib"⟩], [⟨1, 1, some "1.0", "completed"⟩],
         [⟨1, 1, "u", "t", none, none, none, 0⟩],
         [⟨1, 1, "body", ⟨["text"], 3, []⟩, 0⟩], 2, 2, 2, 2⟩
        "lib" "1.0" true).2.versionDeleted = true ∧
    ((removeVersion
        ⟨[⟨1, "lib"⟩], [⟨1, 1, some "1.0", "completed"⟩],
         [⟨1, 1, "u", "t", none, none, none, 0⟩],
         [⟨1, 1, "body", ⟨["text"], 3, []⟩, 0⟩], 2, 2, 2, 2⟩
        "lib" "1.0" true).2.libraryDeleted = true ↔
      true = true ∧
        countVersionsByLibraryId
          (removeVersion
            ⟨[⟨1, "lib"⟩], [⟨1, 1, some "1.0", "completed"⟩],
             [⟨1, 1, "u", "t", none, none, none, 0⟩],
             [⟨1, 1, "body", ⟨["text"], 3, []⟩, 0⟩], 2, 2, 2, 2⟩
            "lib" "1.0" true).1 1 = 0) ∧
    checkDocumentExists
      (removeVersion
        ⟨[⟨1, "lib"⟩], [⟨1, 1, some "1.0", "completed"⟩],
         [⟨1, 1, "u", "t", none, none, none, 0⟩],
         [⟨1, 1, "body", ⟨["text"], 3, []⟩, 0⟩], 2, 2, 2, 2⟩
        "lib" "1.0" true).1 "lib" "1.0" = false) :=
  ⟨by decide,
   removeVersion_cascade
     ⟨[⟨1, "lib"⟩], [⟨1, 1, some "1.0", "completed"⟩],
      [⟨1, 1, "u", "t", none, none, none, 0⟩],
      [⟨1, 1, "body", ⟨["text"], 3, []⟩, 0⟩], 2, 2, 2, 2⟩
     "lib" "1.0" true 1 1 (by decide)⟩

/-- The error value seen by `embedDocumentsWithRetry`'s catch: whether it is
an `Error` instance, and its message. -/
structure EmbedError where
  isError : Bool
  message : String
deriving DecidableEq, Repr

deriving instance DecidableEq for Except

/-- Character-list prefix test. -/
def isPrefixOfChars : List Char → List Char → Bool
  | [], _ => true
  | _ :: _, [] => false
  | a :: as, b :: bs => a = b && isPrefixOfChars as bs

/-- Character-list occurrence test. -/
def isInfixOfChars (sub : List Char) : List Char → Bool
  | [] => decide (sub = [])
  | b :: bs => isPrefixOfChars sub (b :: bs) || isInfixOfChars sub bs

/-- JavaScript `message.includes(sub)`. -/
def strContains (s sub : String) : Bool :=
  isInfixOfChars sub.data s.data

/-- JavaScript `text.substring(0, n)`. -/
def strTake (s : String) (n : Nat) : String :=
  ⟨s.data.take n⟩

/-- Transcription of `DocumentStore.isInputSizeError`: non-`Error` values are
not size errors; otherwise the lowercased message is probed for the known
provider phrasings. -/
def isInputSizeError (e : EmbedError) : Bool :=
  if ¬ e.isError then false
  else
    let message := toLowerStr e.message
    strContains message "maximum context length" ||
    strContains message "too long" ||
    strContains message "token limit" ||
    strContains message "input is too large" ||
    strContains message "exceeds" ||
    (strContains message "max" && strContains message "token")

/-- Transcription of `DocumentStore.embedDocumentsWithRetry` over an
embedding oracle `embed` (the provider call, which either returns the
vectors or throws), with explicit recursion fuel: `none` models only fuel
exhaustion, never a program behaviour.  An empty batch returns `[]`; a
successful call returns its result; a size error on a multi-text batch
splits it at `⌊n/2⌋` and concatenates the recursive results (either half's
error propagates, the first half's error taken when both fail); a size
error on a single text retries its first half (`substring(0, ⌊len/2⌋)`)
once, re-throwing the retry's error; a non-size error is re-thrown. -/
def embedDocumentsWithRetry {α : Type}
    (embed : List String → Except EmbedError (List α)) :
    Nat → List String → Bool → Option (Except EmbedError (List α))
  | 0, _, _ => none
  | fuel + 1, texts, isRetry =>
    if texts.length = 0 then some (Except.ok [])
    else
      match embed texts with
      | Except.ok result => some (Except.ok result)
      | Except.error e =>
        if isInputSizeError e = true then
          if 1 < texts.length then
            let midpoint := texts.length / 2
            match embedDocumentsWithRetry embed fuel (texts.take midpoint) true,
                  embedDocumentsWithRetry embed fuel (texts.drop midpoint) true with
            | some (Except.ok r1), some (Except.ok r2) =>
                some (Except.ok (r1 ++ r2))
            | some (Except.error e1), _ => some (Except.error e1)
            | some (Except.ok _), some (Except.error e2) =>
                some (Except.error e2)
            | none, _ => none
            | some (Except.ok _), none => none
          else
            embedDocumentsWithRetry embed fuel
              [strTake (texts.headD "") ((texts.headD "").length / 2)] true
        else some (Except.error e)

theorem strTake_length (s : String) : strTake s s.length = s := by
  unfold strTake
  cases s with
  | mk data =>
    show String.mk (data.take data.length) = String.mk data
    rw [List.take_length]

theorem strTake_strTake (s : String) (m k : Nat) :
    strTake (strTake s m) k = strTake s (min k m) := by
  unfold strTake
  show String.mk ((s.data.take m).take k) = _
  rw [List.take_take]

/-- C9: `embedDocumentsWithRetry` (i) re-throws a non-size error without any
splitting, (ii) splits a failing multi-text batch at `⌊n/2⌋` into `take` and
`drop` halves and concatenates the recursive results in order, (iii) for a
failing single text retries exactly the first half of that text, and (iv)
for any per-text embedding oracle, a successful run returns one vector per
input text, in input order, each computed from its text or an iterated
first-half truncation of it. -/
theorem embedDocumentsWithRetry_spec {α : Type}
    (embed : List String → Except EmbedError (List α)) :
    (∀ (fuel : Nat) (texts : List String) (isRetry : Bool) (e : EmbedError),
      ¬ texts = [] → embed texts = Except.error e →
      isInputSizeError e = false →
      embedDocumentsWithRetry embed (fuel + 1) texts isRetry =
        some (Except.error e)) ∧
    (∀ (fuel : Nat) (texts : List String) (isRetry : Bool) (e : EmbedError)
      (r1 r2 : List α),
      1 < texts.length → embed texts = Except.error e →
      isInputSizeError e = true →
      embedDocumentsWithRetry embed fuel (texts.take (texts.length / 2)) true =
        some (Except.ok r1) →
      embedDocumentsWithRetry embed fuel (texts.drop (texts.length / 2)) true =
        some (Except.ok r2) →
      embedDocumentsWithRetry embed (fuel + 1) texts isRetry =
        some (Except.ok (r1 ++ r2))) ∧
    (∀ (fuel : Nat) (t : String) (isRetry : Bool) (e : EmbedError),
      embed [t] = Except.error e → isInputSizeError e = true →
      embedDocumentsWithRetry embed (fuel + 1) [t] isRetry =
        embedDocumentsWithRetry embed fuel [strTake t (t.length / 2)] true) ∧
    (∀ (f : String → α),
      (∀ ts r, embed ts = Except.ok r → r = ts.map f) →
      ∀ (fuel : Nat) (texts : List String) (isRetry : Bool) (r : List α),
      embedDocumentsWithRetry embed fuel texts isRetry =
        some (Except.ok r) →
      ∃ ts', r = ts'.map f ∧
        List.Forall₂ (fun t' t => ∃ k, t' = strTake t k) ts' texts) := by
  refine ⟨?_, ?_, ?_, ?_⟩
  · intro fuel texts isRetry e hne hemb hsize
    simp only [embedDocumentsWithRetry]
    rw [if_neg (fun h => hne (List.length_eq_zero.mp h)), hemb]
    dsimp only
    rw [hsize, if_neg Bool.false_ne_true]
  · intro fuel texts isRetry e r1 r2 hmulti hemb hsize h1 h2
    simp only [embedDocumentsWithRetry]
    rw [if_neg (fun h => absurd (h ▸ hmulti) (by decide)), hemb]
    dsimp only
    rw [hsize, if_pos rfl, if_pos hmulti, h1, h2]
  · intro fuel t isRetry e hemb hsize
    simp only [embedDocumentsWithRetry]
    rw [if_neg (by simp), hemb]
    dsimp only
    rw [hsize, if_pos rfl, if_neg (by simp)]
    rfl
  · intro f hf fuel
    induction fuel with
    | zero =>
      intro texts isRetry r h
      exact absurd h (by simp [embedDocumentsWithRetry])
    | succ fu ih =>
      intro texts isRetry r h
      simp only [embedDocumentsWithRetry] at h
      by_cases hlen : texts.length = 0
      · rw [if_pos hlen] at h
        obtain rfl : ([] : List α) = r :=
          Except.ok.inj (Option.some.inj h)
        exact ⟨[], rfl, by rw [List.length_eq_zero.mp hlen]; exact List.Forall₂.nil⟩
      · rw [if_neg hlen] at h
        cases hemb : embed texts with
        | ok r0 =>
          rw [hemb] at h
          dsimp only at h
          obtain rfl : r0 = r := Except.ok.inj (Option.some.inj h)
          refine ⟨texts, hf texts r0 hemb, ?_⟩
          rw [List.forall₂_same]
          intro t ht
          exact ⟨t.length, (strTake_length t).symm⟩
        | error e =>
          rw [hemb] at h
          dsimp only at h
          by_cases hsize : isInputSizeError e = true
          · rw [if_pos hsize] at h
            by_cases hmulti : 1 < texts.length
            · rw [if_pos hmulti] at h
              cases h1 : embedDocumentsWithRetry embed fu
                  (texts.take (texts.length / 2)) true with
              | none => rw [h1] at h; exact absurd h (by simp)
              | some x1 =>
                cases x1 with
                | error e1 =>
                  rw [h1] at h
                  dsimp only at h
                  exact absurd (Option.some.inj h) (by simp)
                | ok r1 =>
                  cases h2 : embedDocumentsWithRetry embed fu
                      (texts.drop (texts.length / 2)) true with
                  | none => rw [h1, h2] at h; exact absurd h (by simp)
                  | some x2 =>
                    cases x2 with
                    | error e2 =>
                      rw [h1, h2] at h
                      dsimp only at h
                      exact absurd (Option.some.inj h) (by simp)
                    | ok r2 =>
                      rw [h1, h2] at h
                      dsimp only at h
                      obtain rfl : r1 ++ r2 = r :=
                        Except.ok.inj (Option.some.inj h)
                      obtain ⟨ts1, hm1, hfa1⟩ := ih _ _ _ h1
                      obtain ⟨ts2, hm2, hfa2⟩ := ih _ _ _ h2
                      refine ⟨ts1 ++ ts2, ?_, ?_⟩
                      · rw [List.map_append, hm1, hm2]
                      · have h3 := List.rel_append hfa1 hfa2
                        dsimp only at h3
                        rwa [List.take_append_drop] at h3
            · rw [if_neg hmulti] at h
              obtain ⟨t, rfl⟩ : ∃ t, texts = [t] := by
                rcases texts with _ | ⟨t, _ | ⟨t2, rest⟩⟩
                · exact absurd rfl hlen
                · exact ⟨t, rfl⟩
                · exact absurd (by simp) hmulti
              obtain ⟨ts', hm, hfa⟩ := ih _ _ _ h
              rw [List.forall₂_cons_right_iff] at hfa
              obtain ⟨t'', l'', ⟨k, hk⟩, hnil, rfl⟩ := hfa
              rw [List.forall₂_nil_right_iff] at hnil
              subst hnil
              refine ⟨[t''], hm, ?_⟩
              refine List.Forall₂.cons ?_ List.Forall₂.nil
              refine ⟨min k (t.length / 2), ?_⟩
              rw [hk]
              exact strTake_strTake t (t.length / 2) k
          · rw [if_neg hsize] at h
            exact absurd (Option.some.inj h) (by simp)

/-- A concrete embedding oracle: fails with a size error whenever some text
has three or more characters, otherwise returns each text's length. -/
def embedOracleProbe : List String → Except EmbedError (List Nat) :=
  fun ts =>
    if ts.any (fun t => 3 ≤ t.length) then
      Except.error ⟨true, "input is too large"⟩
    else Except.ok (ts.map (fun t => t.length))

/-- Witness for the C9 theorem: the batch `["abc", "dd"]` fails with a size
error, is split into `["abc"]` and `["dd"]`, and the halves' results are
concatenated in order (the oversized single text `"abc"` retried as its
first half `"a"`). -/
theorem embedDocumentsWithRetry_spec_witness :
    (1 < (["abc", "dd"] : List String).length) ∧
    embedDocumentsWithRetry embedOracleProbe 3 ["abc", "dd"] false =
      some (Except.ok [1, 2]) :=
  ⟨by decide,
   (embedDocumentsWithRetry_spec embedOracleProbe).2.1 2 ["abc", "dd"] false
     ⟨true, "input is too large"⟩ [1] [2] (by decide) (by decide) (by decide)
     (by decide) (by decide)⟩
